import Mathlib

/-!
# Verification of the Douyin text-extractor core (`src/services/DouyinService.ts`)

This development shallowly embeds the four-stage pipeline of `DouyinService`
(link resolution, video download, audio extraction, speech transcription, and
the orchestrator `extractText`) together with the `FileUtils` helpers, and
proves properties of the embedding.

Modelling conventions:
* The filesystem is an explicit association list from paths to file contents.
* Network and subprocess collaborators (axios, ffmpeg, the speech API) are
  modelled by explicit environment values describing what each external call
  returns; the code's handling of those results is translated from the source.
* JavaScript strings are Lean `String`s; a byte of a download chunk is one
  character, so JS `chunk.length` is `String.length`.
* `JSON.parse` (a JS runtime builtin) is part of the environment
  (`AttemptEnv.jsonParse`); the repository's own navigation of the parsed
  value (`loaderData` keys, `item_list`, the `playwm` rewrite) is translated
  over a small JSON value type.
* Promise rejection / thrown `Error` values are `Except String` errors
  carrying the error message.
-/

namespace Douyin

/-! ## Generic string machinery (JS string operations used by the source) -/

/-- Scanner for substring containment: does `pat` occur inside `l`?
Models JS `String.prototype.includes`. -/
def hasSubstrL (pat : List Char) : List Char → Bool
  | [] => decide (pat = [])
  | c :: rest => pat.isPrefixOf (c :: rest) || hasSubstrL pat rest

/-- JS `s.includes(pat)`. -/
def strContains (s pat : String) : Bool :=
  hasSubstrL pat.toList s.toList

/-- Replace the first occurrence of `pat` (if any) by `rep`.
Models JS `String.prototype.replace` with a string pattern, which replaces
only the first occurrence. -/
def replaceFirstL (pat rep : List Char) : List Char → List Char
  | [] => []
  | c :: rest =>
      if pat.isPrefixOf (c :: rest) then rep ++ (c :: rest).drop pat.length
      else c :: replaceFirstL pat rep rest

/-- JS `s.replace(pat, rep)` (string pattern: first occurrence only). -/
def jsReplaceFirst (s pat rep : String) : String :=
  String.mk (replaceFirstL pat.toList rep.toList s.toList)

/-- JS `s.split(sep)` for a one-character separator. -/
def splitOnCharL (sep : Char) : List Char → List (List Char)
  | [] => [[]]
  | c :: rest =>
      let r := splitOnCharL sep rest
      if c = sep then [] :: r
      else
        match r with
        | [] => [[c]]
        | h :: t => (c :: h) :: t

/-- JS `s.trim()`: strip whitespace from both ends. -/
def trimL (l : List Char) : List Char :=
  ((l.dropWhile Char.isWhitespace).reverse.dropWhile Char.isWhitespace).reverse

/-- JS `s.trim()` on strings. -/
def jsTrim (s : String) : String :=
  String.mk (trimL s.toList)

instance {ε α : Type} [DecidableEq ε] [DecidableEq α] : DecidableEq (Except ε α) := fun a b =>
  match a, b with
  | .ok x, .ok y =>
      if h : x = y then isTrue (by rw [h])
      else isFalse (by intro hh; cases hh; exact h rfl)
  | .error x, .error y =>
      if h : x = y then isTrue (by rw [h])
      else isFalse (by intro hh; cases hh; exact h rfl)
  | .ok _, .error _ => isFalse (by intro hh; cases hh)
  | .error _, .ok _ => isFalse (by intro hh; cases hh)

/-! ## `FileUtils` (src/utils/fileUtils.ts) -/

/-- `FileUtils.sanitizeFilename`: `filename.replace(/[\\/:*?"<>|]/g, "_")` —
a global regex replace, i.e. every character of the class becomes `_`. -/
def sanitizeFilename (s : String) : String :=
  String.mk (s.toList.map (fun c =>
    if ['\\', '/', ':', '*', '?', '\"', '<', '>', '|'].contains c then '_' else c))

/-- The filesystem: an association list from paths to file contents. -/
abbrev FS := List (String × String)

def FS.lookup : FS → String → Option String
  | [], _ => none
  | (k, v) :: rest, p => if k = p then some v else FS.lookup rest p

/-- Remove the file at `p` (no-op when absent). -/
def FS.erase : FS → String → FS
  | [], _ => []
  | (k, v) :: rest, p => if k = p then FS.erase rest p else (k, v) :: FS.erase rest p

/-- Create or overwrite the file at `p` with content `v`. -/
def FS.insert (fs : FS) (p v : String) : FS :=
  (p, v) :: fs.erase p

/-- `FileUtils.deleteFile`: unlink if the file exists, reporting success;
`success = false` when the file does not exist. -/
def deleteFile (fs : FS) (p : String) : FS × Bool :=
  match fs.lookup p with
  | some _ => (fs.erase p, true)
  | none => (fs, false)

/-- `FileUtils.deleteFiles`: best-effort per-file deletion collecting the
deleted paths and the per-path error messages, never throwing. -/
def deleteFiles (fs : FS) : List String → FS × List String × List String
  | [] => (fs, [], [])
  | p :: ps =>
      let r1 := deleteFile fs p
      let r2 := deleteFiles r1.1 ps
      if r1.2 then (r2.1, p :: r2.2.1, r2.2.2)
      else (r2.1, r2.2.1, (p ++ ": File does not exist") :: r2.2.2)

/-! ## Data model (src/types) -/

/-- `DouyinVideoInfo` of `src/types`. -/
structure DouyinVideoInfo where
  videoId : String
  title : String
  downloadUrl : String
  desc : Option String
  deriving DecidableEq, Repr

/-- The `stage` enumeration of `ProcessingProgress`. -/
inductive Stage
  | parsing
  | downloading
  | extracting_audio
  | speech_recognition
  | cleaning
  | completed
  deriving DecidableEq, Repr

/-- `ProcessingProgress` of `src/types` (a progress event). -/
structure ProgressEvent where
  stage : Stage
  progress : Nat
  message : String
  deriving DecidableEq, Repr

/-! ## Link resolver (`parseShareUrl`, DouyinService.ts lines 161-462) -/

/-- One repetition unit of the share-URL regex
`/http[s]?:\/\/(?:[a-zA-Z]|[0-9]|[$-_@.&+]|[!*(),]|(?:%[0-9a-fA-F][0-9a-fA-F]))+/`:
the single-character alternatives.  (`@ . & + * ( ) ,` and `%` all lie in the
range `$-_`, so a `%XX` escape always starts with a unit character; hence for
existence of a match only the single-character classes matter.) -/
def isUrlChar (c : Char) : Bool :=
  c.isAlpha || c.isDigit || ('$' ≤ c && c ≤ '_') ||
    c == '!' || c == '*' || c == '(' || c == ')' || c == ','

/-- Does the regex match starting exactly here?  `http`, optional `s`,
`://`, then at least one unit character. -/
def urlAt (l : List Char) : Bool :=
  if "https://".toList.isPrefixOf l then
    match l.drop 8 with
    | [] => false
    | c :: _ => isUrlChar c
  else if "http://".toList.isPrefixOf l then
    match l.drop 7 with
    | [] => false
    | c :: _ => isUrlChar c
  else false

def hasUrlAux : List Char → Bool
  | [] => false
  | c :: rest => urlAt (c :: rest) || hasUrlAux rest

/-- `shareText.match(urlRegex)` is non-null: some URL-shaped substring exists. -/
def hasUrl (s : String) : Bool :=
  hasUrlAux s.toList

/-- `shareResponse.request.res.responseUrl.split("?")[0].trim().split("/").pop()`. -/
def extractVideoId (url : String) : String :=
  String.mk ((splitOnCharL '/' (trimL ((splitOnCharL '?' url.toList).headD url.toList))).getLastD [])

/-- The interstitial check of lines 267-268: the page body contains a login /
captcha keyword. -/
def needsAuth (html : String) : Bool :=
  strContains html "登录" || strContains html "login" ||
    strContains html "验证" || strContains html "captcha"

def routerToken : List Char := "window._ROUTER_DATA".toList

def scriptClose : List Char := "</script>".toList

/-- The lazy capture `(.*?)<\/script>` (with `/s` flag): the shortest prefix
that is followed by `</script>`; `none` when no `</script>` follows. -/
def findLazyCapture : List Char → Option (List Char)
  | [] => none
  | c :: rest =>
      if scriptClose.isPrefixOf (c :: rest) then some []
      else (findLazyCapture rest).map (fun cap => c :: cap)

/-- Try to match `window\._ROUTER_DATA\s*=\s*(.*?)<\/script>` at this
position, returning the capture group. -/
def routerMatchAt (l : List Char) : Option (List Char) :=
  if routerToken.isPrefixOf l then
    match (l.drop routerToken.length).dropWhile Char.isWhitespace with
    | '=' :: r2 => findLazyCapture (r2.dropWhile Char.isWhitespace)
    | _ => none
  else none

/-- First match of the `window._ROUTER_DATA` pattern in the page body
(line 291-292): the capture group of the earliest matching position. -/
def extractRouterL : List Char → Option (List Char)
  | [] => none
  | c :: rest =>
      match routerMatchAt (c :: rest) with
      | some cap => some cap
      | none => extractRouterL rest

def routerDataOf (html : String) : Option String :=
  (extractRouterL html.toList).map String.mk

/-! ### JSON values and the payload navigation of lines 357-421 -/

/-- A JSON value as produced by `JSON.parse`. -/
inductive Json
  | null
  | bool (b : Bool)
  | num (n : Int)
  | str (s : String)
  | arr (xs : List Json)
  | obj (fields : List (String × Json))

/-- JS property access `v[k]` on a defined, non-null value: `undefined`
(`none`) unless `v` is an object with field `k`. -/
def jsGet (v : Json) (k : String) : Option Json :=
  match v with
  | .obj fields => (fields.find? (fun f => f.1 == k)).map (fun f => f.2)
  | _ => none

/-- JS property access on a possibly-`undefined` base: accessing a property
of `undefined` or `null` throws a `TypeError`. -/
def jsAccess (v : Option Json) (k : String) : Except String (Option Json) :=
  match v with
  | none => .error ("Cannot read properties of undefined (reading " ++ k ++ ")")
  | some .null => .error ("Cannot read properties of null (reading " ++ k ++ ")")
  | some w => .ok (jsGet w k)

/-- JS array indexing `v[i]` under `jsAccess` conventions. -/
def jsIndex (v : Option Json) (i : Nat) : Except String (Option Json) :=
  match v with
  | none => .error "Cannot read properties of undefined (reading 0)"
  | some .null => .error "Cannot read properties of null (reading 0)"
  | some (.arr xs) => .ok (xs.get? i)
  | some _ => .ok none

/-- JS truthiness of a defined value. -/
def jsTruthy : Option Json → Bool
  | none => false
  | some .null => false
  | some (.bool b) => b
  | some (.num n) => n != 0
  | some (.str s) => s != ""
  | some (.arr _) => true
  | some (.obj _) => true

/-- Lines 358-410: locate `videoInfoRes` under one of the two known
`loaderData` keys, take `item_list[0]`, rewrite the watermarked playback URL
(`.replace("playwm", "play")` — first occurrence) and read `desc` with its
`douyin_<videoId>` default.  Returns `(downloadUrl, desc)`. -/
def navigateVideoInfo (videoId : String) (root : Json) : Except String (String × String) := do
  let loaderData := jsGet root "loaderData"
  let videoPage ← jsAccess loaderData "video_(id)/page"
  let originalVideoInfo ←
    if jsTruthy videoPage then
      jsAccess videoPage "videoInfoRes"
    else do
      let notePage ← jsAccess loaderData "note_(id)/page"
      if jsTruthy notePage then
        jsAccess notePage "videoInfoRes"
      else
        .error "无法从JSON中解析视频或图集信息"
  let itemList ← jsAccess originalVideoInfo "item_list"
  let data ← jsIndex itemList 0
  let video ← jsAccess data "video"
  let playAddr ← jsAccess video "play_addr"
  let urlList ← jsAccess playAddr "url_list"
  let url0 ← jsIndex urlList 0
  let videoUrl ←
    match url0 with
    | some (.str u) => pure (jsReplaceFirst u "playwm" "play")
    | none => .error "Cannot read properties of undefined (reading replace)"
    | some .null => .error "Cannot read properties of null (reading replace)"
    | some _ => .error "replace is not a function"
  let descField ← jsAccess data "desc"
  let desc ←
    match descField with
    | some (.str s) => pure (if jsTrim s = "" then "douyin_" ++ videoId else jsTrim s)
    | none => pure ("douyin_" ++ videoId)
    | some .null => pure ("douyin_" ++ videoId)
    | some _ => .error "trim is not a function"
  return (videoUrl, desc)

/-! ### The retry loop -/

/-- What the collaborators return during one attempt of the resolve loop:
the redirect-following GET of the share URL (its final `responseUrl`), the
GET of the canonical video page (its HTML body), and `JSON.parse`. -/
structure AttemptEnv where
  shareReq : Except String String
  pageReq : Except String String
  jsonParse : String → Except String Json

/-- Backoff before an interstitial retry (line 283):
`Math.min(1000 * Math.pow(2, attempt - 1), 5000)`. -/
def interstitialDelay (attempt : Nat) : Nat :=
  min (1000 * 2 ^ (attempt - 1)) 5000

/-- Backoff before a parse-failure retry (line 323):
`Math.min(2000 * Math.pow(2, attempt - 1), 10000)`. -/
def parseFailedDelay (attempt : Nat) : Nat :=
  min (2000 * 2 ^ (attempt - 1)) 10000

/-- Backoff after a caught exception (line 438):
`Math.min(3000 * Math.pow(2, attempt - 1), 15000)`. -/
def exceptionDelay (attempt : Nat) : Nat :=
  min (3000 * 2 ^ (attempt - 1)) 15000

/-- How one iteration of the `for` loop of lines 180-447 ends. -/
inductive BodyOutcome
  | ret (info : DouyinVideoInfo)
  | thrown (msg : String)
  | interstitialRetry
  | parseRetry
  deriving DecidableEq, Repr

/-- The body of one attempt (lines 181-421), together with the number of
HTTP requests it issued.  Exceptions from either request, from `JSON.parse`
or from the payload navigation all surface as `.thrown` (landing in the
`catch` of line 423). -/
def runBody (e : AttemptEnv) (attempt maxRetries : Nat) : BodyOutcome × Nat :=
  match e.shareReq with
  | .error m => (.thrown m, 1)
  | .ok respUrl =>
    match e.pageReq with
    | .error m => (.thrown m, 2)
    | .ok html =>
      let videoId := extractVideoId respUrl
      if needsAuth html ∧ attempt < maxRetries then (.interstitialRetry, 2)
      else
        let cap := (routerDataOf html).getD ""
        if cap = "" then
          if attempt < maxRetries then (.parseRetry, 2)
          else (.thrown "从HTML中解析视频信息失败", 2)
        else
          match e.jsonParse (jsTrim cap) with
          | .error m => (.thrown m, 2)
          | .ok root =>
            match navigateVideoInfo videoId root with
            | .error m => (.thrown m, 2)
            | .ok (videoUrl, desc) =>
                (.ret { videoId := videoId, title := sanitizeFilename desc,
                        downloadUrl := videoUrl, desc := some desc }, 2)

/-- Observable bookkeeping of a resolve call: the successive backoff sleeps,
the HTTP requests issued, and the loop iterations performed. -/
structure LoopState where
  delays : List Nat
  httpReqs : Nat
  attemptsMade : Nat
  deriving DecidableEq, Repr

/-- Line 459-461. -/
def finalFailureMsg (maxRetries : Nat) (lastError : Option String) : String :=
  "解析抖音链接失败 (已重试 " ++ toString maxRetries ++ " 次): " ++ lastError.getD "未知错误"

/-- The retry loop, counted by remaining iterations `r` (the attempt number
of the iteration at `r + 1` is `maxRetries - r`).  Mirrors lines 180-461:
an interstitial retry sleeps `interstitialDelay` without recording an error;
a parse-failure retry sleeps `parseFailedDelay` and records the parse error;
a caught exception records the error and sleeps `exceptionDelay` only when
attempts remain. -/
def parseLoop (env : Nat → AttemptEnv) (maxRetries : Nat) :
    Nat → Option String → LoopState → Except String DouyinVideoInfo × LoopState
  | 0, lastError, st => (.error (finalFailureMsg maxRetries lastError), st)
  | r + 1, lastError, st =>
    let attempt := maxRetries - r
    let (out, n) := runBody (env attempt) attempt maxRetries
    let st1 : LoopState := ⟨st.delays, st.httpReqs + n, st.attemptsMade + 1⟩
    match out with
    | .ret info => (.ok info, st1)
    | .interstitialRetry =>
        parseLoop env maxRetries r lastError
          ⟨st1.delays ++ [interstitialDelay attempt], st1.httpReqs, st1.attemptsMade⟩
    | .parseRetry =>
        parseLoop env maxRetries r (some "从HTML中解析视频信息失败")
          ⟨st1.delays ++ [parseFailedDelay attempt], st1.httpReqs, st1.attemptsMade⟩
    | .thrown m =>
        if attempt < maxRetries then
          parseLoop env maxRetries r (some m)
            ⟨st1.delays ++ [exceptionDelay attempt], st1.httpReqs, st1.attemptsMade⟩
        else
          parseLoop env maxRetries r (some m) st1

/-- `parseShareUrl(shareText, maxRetries)` (lines 161-462): extract the first
URL-shaped substring (failing fast with no request when there is none), then
run the bounded retry loop. -/
def parseShareUrl (env : Nat → AttemptEnv) (shareText : String) (maxRetries : Nat) :
    Except String DouyinVideoInfo × LoopState :=
  if hasUrl shareText then parseLoop env maxRetries maxRetries none ⟨[], 0, 0⟩
  else (.error "未找到有效的分享链接", ⟨[], 0, 0⟩)

/-! ## Video fetcher (`downloadVideo`, DouyinService.ts lines 467-625) -/

/-- Terminal signal of a byte stream / subprocess. -/
inductive StreamEnd
  | finish
  | errored (msg : String)
  deriving DecidableEq, Repr

/-- What the media server returns: the `content-length` header (absent ⇒
`parseInt("0") = 0`), the streamed chunks, and how the stream/writer ends. -/
structure DlResp where
  contentLength : Option Nat
  chunks : List String
  ending : StreamEnd

/-- `Math.round((downloadedSize / totalSize) * 100)` when `totalSize > 0`,
else `0` (lines 549, 563): round-half-up of `downloaded * 100 / total`. -/
def roundPercent (downloaded total : Nat) : Nat :=
  if total > 0 then (2 * (downloaded * 100) + total) / (2 * total) else 0

/-- `path.join(this.downloadDir, `${videoInfo.videoId}.mp4`)` (lines 487-488):
the destination is derived from the video id, never from the title. -/
def videoPathOf (downloadDir : String) (info : DouyinVideoInfo) : String :=
  downloadDir ++ "/" ++ info.videoId ++ ".mp4"

/-- The per-chunk `data` events (lines 547-566): cumulative size, rounded
percent. -/
def chunkEvents (videoId : String) (total : Nat) : List String → Nat → List ProgressEvent
  | [], _ => []
  | c :: rest, downloaded =>
      let d := downloaded + c.length
      let p := roundPercent d total
      ⟨.downloading, p, "下载进度: " ++ toString p ++ "% (" ++ videoId ++ ")"⟩ ::
        chunkEvents videoId total rest d

/-- Result of one `downloadVideo` call. -/
structure DlOutcome where
  result : Except String String
  fs : FS
  events : List ProgressEvent
  httpReqs : Nat
  deriving Repr

/-- `downloadVideo(videoInfo, progressCallback)`.  If the destination exists
it returns it after a single 100% event and no request (lines 493-510).
Otherwise it streams to disk, deleting the partial file and rejecting on a
writer error (lines 596-608), and deleting the file and throwing on a
request-level exception (lines 610-624). -/
def downloadVideo (downloadDir : String) (info : DouyinVideoInfo)
    (env : Except String DlResp) (fs : FS) : DlOutcome :=
  let videoPath := videoPathOf downloadDir info
  match fs.lookup videoPath with
  | some _ =>
      { result := .ok videoPath, fs := fs,
        events := [⟨.downloading, 100, "视频已存在，跳过下载: " ++ info.videoId⟩],
        httpReqs := 0 }
  | none =>
      let startEvt : ProgressEvent :=
        ⟨.downloading, 0, "开始下载视频: " ++ info.title ++ " (" ++ info.videoId ++ ")"⟩
      match env with
      | .error m =>
          { result := .error ("下载视频失败: " ++ m),
            fs := (deleteFile fs videoPath).1,
            events := [startEvt], httpReqs := 1 }
      | .ok resp =>
          let totalSize := resp.contentLength.getD 0
          let evts := startEvt :: chunkEvents info.videoId totalSize resp.chunks 0
          match resp.ending with
          | .finish =>
              { result := .ok videoPath,
                fs := fs.insert videoPath (String.join resp.chunks),
                events := evts ++ [⟨.downloading, 100, "视频下载完成: " ++ info.videoId⟩],
                httpReqs := 1 }
          | .errored m =>
              { result := .error ("下载视频失败: " ++ m),
                fs := (deleteFile (fs.insert videoPath (String.join resp.chunks)) videoPath).1,
                events := evts, httpReqs := 1 }

/-! ## Audio extractor (`extractAudio`, DouyinService.ts lines 630-734) -/

/-- What the ffmpeg subprocess does: the `progress.percent` values it reports
(`undefined` ⇒ `|| 0`), whether the file it is writing at the output path
exists when it terminates (and with what content), and its terminal signal. -/
structure FfmpegEnv where
  reported : List (Option Nat)
  written : Option String
  ending : StreamEnd

/-- `videoPath.replace(".mp4", ".mp3")` (line 635) — JS `replace` with a
string pattern rewrites only the first occurrence. -/
def audioPathOf (videoPath : String) : String :=
  jsReplaceFirst videoPath ".mp4" ".mp3"

/-- The `progress` events of lines 677-695: `Math.round(progress.percent || 0)`. -/
def ffmpegEvents (reported : List (Option Nat)) : List ProgressEvent :=
  reported.map (fun p =>
    ⟨.extracting_audio, p.getD 0, "音频提取进度: " ++ toString (p.getD 0) ++ "%"⟩)

/-- Result of one `extractAudio` call. -/
structure AudioOutcome where
  result : Except String String
  fs : FS
  events : List ProgressEvent
  deriving Repr

/-- `extractAudio(videoPath, progressCallback)`: reject when the input is
missing (lines 643-646); otherwise emit 0%, the 10% `start` marker, the
mapped ffmpeg percents; on `end` resolve the derived audio path — without
checking that the output file exists (lines 696-717); on `error` delete any
partial output and reject (lines 718-730). -/
def extractAudio (videoPath : String) (env : FfmpegEnv) (fs : FS) : AudioOutcome :=
  let audioPath := audioPathOf videoPath
  match fs.lookup videoPath with
  | none => { result := .error ("视频文件不存在: " ++ videoPath), fs := fs, events := [] }
  | some _ =>
      let evts := ⟨.extracting_audio, 0, "开始提取音频"⟩ ::
        ⟨.extracting_audio, 10, "正在提取音频..."⟩ :: ffmpegEvents env.reported
      let fsMid :=
        match env.written with
        | some content => fs.insert audioPath content
        | none => fs
      match env.ending with
      | .finish =>
          { result := .ok audioPath, fs := fsMid,
            events := evts ++ [⟨.extracting_audio, 100, "音频提取完成"⟩] }
      | .errored m =>
          { result := .error ("提取音频失败: " ++ m),
            fs := (deleteFile fsMid audioPath).1, events := evts }

/-! ## Transcription client (`extractTextFromAudio`, lines 739-831) -/

/-- Line 793's fallback for an absent/empty `text` field. -/
def placeholderText : String := "未能识别出文本内容"

/-- Result of one `extractTextFromAudio` call (it never touches the fs). -/
structure SpeechOutcome where
  result : Except String String
  events : List ProgressEvent
  deriving DecidableEq, Repr

/-- `extractTextFromAudio(audioPath, progressCallback)`.  The environment is
the `text` field of the JSON response body (`.error` = request failed or
non-2xx; `.ok none` = field absent).  `response.data.text || placeholder`
treats an absent or empty field as the placeholder, not an error. -/
def extractTextFromAudio (audioPath : String) (env : Except String (Option String))
    (fs : FS) : SpeechOutcome :=
  match fs.lookup audioPath with
  | none => { result := .error ("音频文件不存在: " ++ audioPath), events := [] }
  | some _ =>
      match env with
      | .error m =>
          { result := .error ("语音识别失败: " ++ m),
            events := [⟨.speech_recognition, 0, "开始语音识别"⟩] }
      | .ok t =>
          let txt :=
            match t with
            | some s => if s = "" then placeholderText else s
            | none => placeholderText
          { result := .ok txt,
            events := [⟨.speech_recognition, 0, "开始语音识别"⟩,
                       ⟨.speech_recognition, 100, "语音识别完成"⟩] }

/-! ## Pipeline orchestrator (`extractText`, DouyinService.ts lines 836-947) -/

/-- The constructor options that matter to the orchestrator. -/
structure PipelineConfig where
  autoCleanTempFiles : Bool
  downloadDir : String

/-- All collaborator behaviour for one pipeline run. -/
structure PipelineEnv where
  resolve : Nat → AttemptEnv
  download : Except String DlResp
  ffmpeg : FfmpegEnv
  speech : Except String (Option String)

/-- Result of one `extractText` run: the returned (or thrown) value, the
final filesystem, all forwarded progress events, the tracked temp-file list,
and — when cleanup ran — its `(deletedFiles, errors)` outcome. -/
structure PipelineOutcome where
  result : Except String (DouyinVideoInfo × String)
  fs : FS
  events : List ProgressEvent
  tempFiles : List String
  cleaned : Option (List String × List String)

/-- The conditional cleanup of lines 881-900 and 933-943: attempted exactly
when `autoCleanTempFiles` is set, on success and failure paths alike. -/
def runCleanup (autoClean : Bool) (fs : FS) (tempFiles : List String) :
    FS × Option (List String × List String) :=
  if autoClean then
    let r := deleteFiles fs tempFiles
    (r.1, some r.2)
  else (fs, none)

/-- `extractText(shareLink, progressCallback, maxRetries)`: the strictly
linear parse → download → extract-audio → transcribe pipeline, pushing each
produced artifact path onto `tempFiles` after its stage returns, forwarding
every stage's events verbatim, cleaning according to the flag on both exits,
and rethrowing the failing stage's error unchanged. -/
def extractText (cfg : PipelineConfig) (env : PipelineEnv) (shareText : String)
    (maxRetries : Nat) (fs : FS) : PipelineOutcome :=
  let parseEvt0 : ProgressEvent := ⟨.parsing, 0, "正在解析抖音链接"⟩
  match (parseShareUrl env.resolve shareText maxRetries).1 with
  | .error m =>
      let c := runCleanup cfg.autoCleanTempFiles fs []
      { result := .error m, fs := c.1, events := [parseEvt0],
        tempFiles := [], cleaned := c.2 }
  | .ok info =>
      let parseEvts := [parseEvt0, ⟨.parsing, 100, "链接解析完成"⟩]
      let dl := downloadVideo cfg.downloadDir info env.download fs
      match dl.result with
      | .error m =>
          let c := runCleanup cfg.autoCleanTempFiles dl.fs []
          { result := .error m, fs := c.1, events := parseEvts ++ dl.events,
            tempFiles := [], cleaned := c.2 }
      | .ok videoPath =>
          let temp1 := [videoPath]
          let au := extractAudio videoPath env.ffmpeg dl.fs
          match au.result with
          | .error m =>
              let c := runCleanup cfg.autoCleanTempFiles au.fs temp1
              { result := .error m, fs := c.1,
                events := parseEvts ++ dl.events ++ au.events,
                tempFiles := temp1, cleaned := c.2 }
          | .ok audioPath =>
              let temp2 := [videoPath, audioPath]
              let sp := extractTextFromAudio audioPath env.speech au.fs
              match sp.result with
              | .error m =>
                  let c := runCleanup cfg.autoCleanTempFiles au.fs temp2
                  { result := .error m, fs := c.1,
                    events := parseEvts ++ dl.events ++ au.events ++ sp.events,
                    tempFiles := temp2, cleaned := c.2 }
              | .ok text =>
                  let cleanEvts : List ProgressEvent :=
                    if cfg.autoCleanTempFiles then [⟨.cleaning, 0, "正在清理临时文件"⟩] else []
                  let c := runCleanup cfg.autoCleanTempFiles au.fs temp2
                  { result := .ok (info, text), fs := c.1,
                    events := parseEvts ++ dl.events ++ au.events ++ sp.events ++
                      cleanEvts ++ [⟨.completed, 100, "处理完成"⟩],
                    tempFiles := temp2, cleaned := c.2 }

/-! ## Derived notions used to state the properties -/

/-- The three retryable failure classes of the resolve loop. -/
inductive FailClass
  | interstitial
  | parseFail
  | reqError
  deriving DecidableEq, Repr

/-- The backoff formula the loop applies for each failure class. -/
def delayOf : FailClass → Nat → Nat
  | .interstitial, a => interstitialDelay a
  | .parseFail, a => parseFailedDelay a
  | .reqError, a => exceptionDelay a

/-- Classify how the attempt with this environment ends, `none` when it
reaches the JSON-payload stage (i.e. none of the three retryable shapes
named by the specification occurs before that point). -/
def classAt (e : AttemptEnv) (attempt maxRetries : Nat) : Option FailClass :=
  match e.shareReq with
  | .error _ => some .reqError
  | .ok _ =>
    match e.pageReq with
    | .error _ => some .reqError
    | .ok html =>
      if needsAuth html ∧ attempt < maxRetries then some .interstitial
      else if (routerDataOf html).getD "" = "" then some .parseFail
      else none

/-- The backoff sleeps an all-failing run performs during its last `s`
iterations (the iteration at fuel `s + 1` is attempt `maxRetries - s`; no
sleep follows the final attempt). -/
def plannedDelays (cls : Nat → FailClass) (maxRetries : Nat) : Nat → List Nat
  | 0 => []
  | s + 1 =>
      (if maxRetries - s < maxRetries
       then [delayOf (cls (maxRetries - s)) (maxRetries - s)] else []) ++
        plannedDelays cls maxRetries s

/-- The events a run emitted for one stage (stages never interleave, so this
is the contiguous per-stage subsequence). -/
def stageEvents (evs : List ProgressEvent) (s : Stage) : List ProgressEvent :=
  evs.filter (fun e => decide (e.stage = s))

/-- Total number of bytes streamed. -/
def chunksTotal (cs : List String) : Nat :=
  (cs.map String.length).sum

/-- Modelled from the spec's words, for comparison with `audioPathOf`:
"derives \x7ban audio path\x7d equal to p with the video file's extension
replaced by the audio extension (.mp4 becomes .mp3), leaving every other
part of the path unchanged". -/
def specAudioPath (p : String) : String :=
  if ".mp4".toList.isSuffixOf p.toList
  then String.mk (p.toList.take (p.toList.length - 4)) ++ ".mp3"
  else p

/-! ## Concrete fixtures for closed witnesses and counterexamples -/

/-- A well-formed `_ROUTER_DATA` payload as `JSON.parse` returns it. -/
def fixJson : Json :=
  .obj [("loaderData", .obj [("video_(id)/page", .obj [("videoInfoRes", .obj [("item_list", .arr
    [ .obj [("video", .obj [("play_addr", .obj [("url_list",
              .arr [.str "https://cdn.example/playwm/7123.mp4"])])]),
            ("desc", .str "hello")] ])])])])]

/-- A resolver environment that succeeds on every attempt. -/
def fixResolveOk : Nat → AttemptEnv := fun _ =>
  { shareReq := .ok "https://www.iesdouyin.com/share/video/7123",
    pageReq := .ok "<html>window._ROUTER_DATA = {json}</script></html>",
    jsonParse := fun _ => .ok fixJson }

/-- The descriptor `fixResolveOk` resolves to. -/
def fixInfo : DouyinVideoInfo :=
  { videoId := "7123", title := "hello",
    downloadUrl := "https://cdn.example/play/7123.mp4", desc := some "hello" }

/-- A resolver environment whose requests all fail. -/
def fixResolveDead : Nat → AttemptEnv := fun _ =>
  { shareReq := .error "offline", pageReq := .error "offline",
    jsonParse := fun _ => .error "offline" }

/-- Every attempt fails with the parse-failure class (no `_ROUTER_DATA`). -/
def envPF : Nat → AttemptEnv := fun _ =>
  { shareReq := .ok "https://www.iesdouyin.com/share/video/7123",
    pageReq := .ok "<html>nothing here</html>",
    jsonParse := fun _ => .error "unused" }

/-- Attempt 1 fails at request level, attempt 2 hits an interstitial,
attempt 3 fails to find the JSON marker. -/
def envMix : Nat → AttemptEnv := fun a =>
  if a = 1 then
    { shareReq := .error "connect ECONNRESET", pageReq := .ok "",
      jsonParse := fun _ => .error "unused" }
  else if a = 2 then
    { shareReq := .ok "https://www.iesdouyin.com/share/video/7123",
      pageReq := .ok "<html>please login</html>",
      jsonParse := fun _ => .error "unused" }
  else
    { shareReq := .ok "https://www.iesdouyin.com/share/video/7123",
      pageReq := .ok "<html>nothing here</html>",
      jsonParse := fun _ => .error "unused" }

def fixVideoInfo : DouyinVideoInfo :=
  { videoId := "v1", title := "一个标题", downloadUrl := "http://cdn.example/v1", desc := none }

def fixDlFinish : Except String DlResp :=
  .ok { contentLength := some 3, chunks := ["abc"], ending := .finish }

def fixDlBoom : Except String DlResp := .error "socket hang up"

def fixFfFinish : FfmpegEnv := { reported := [], written := none, ending := .finish }

def fixFfWrite : FfmpegEnv :=
  { reported := [some 42, some 80], written := some "AUDIO", ending := .finish }

def fixFfErr : FfmpegEnv :=
  { reported := [some 42], written := some "PARTIAL", ending := .errored "ffmpeg exited with code 1" }

def cfgClean : PipelineConfig := { autoCleanTempFiles := true, downloadDir := "dl" }

def cfgKeep : PipelineConfig := { autoCleanTempFiles := false, downloadDir := "dl" }

/-- A fully successful pipeline environment. -/
def pipeGood : PipelineEnv :=
  { resolve := fixResolveOk,
    download := .ok { contentLength := some 6, chunks := ["abc", "def"], ending := .finish },
    ffmpeg := fixFfWrite,
    speech := .ok (some "hello world") }

/-- ffmpeg signals `end` without having produced the output file, so the
speech stage fails on the missing audio file. -/
def pipeNoAudio : PipelineEnv :=
  { resolve := fixResolveOk, download := fixDlFinish,
    ffmpeg := fixFfFinish, speech := .ok (some "x") }

/-- The server advertises `content-length: 1` but streams 2 bytes, and
ffmpeg reports 5% after the fixed 10% start marker. -/
def pipeBad : PipelineEnv :=
  { resolve := fixResolveOk,
    download := .ok { contentLength := some 1, chunks := ["ab"], ending := .finish },
    ffmpeg := { reported := [some 5], written := some "A", ending := .finish },
    speech := .ok (some "x") }

/-- The download request throws. -/
def pipeDlFail : PipelineEnv :=
  { resolve := fixResolveOk, download := fixDlBoom,
    ffmpeg := fixFfFinish, speech := .ok (some "x") }

/-! # Lemmas about the filesystem model -/

theorem fs_lookup_cons (k v : String) (rest : FS) (q : String) :
    FS.lookup ((k, v) :: rest) q = if k = q then some v else FS.lookup rest q := rfl

theorem fs_erase_lookup (fs : FS) (p q : String) :
    FS.lookup (FS.erase fs p) q = if q = p then none else FS.lookup fs q := by
  induction fs with
  | nil => simp [FS.erase, FS.lookup]
  | cons kv rest ih =>
      obtain ⟨k, v⟩ := kv
      rw [FS.erase]
      by_cases hk : k = p
      · rw [if_pos hk, ih, fs_lookup_cons]
        by_cases hq : q = p
        · rw [if_pos hq, if_pos hq]
        · rw [if_neg hq, if_neg hq, if_neg (by rw [hk]; exact fun h => hq h.symm)]
      · rw [if_neg hk, fs_lookup_cons, ih, fs_lookup_cons]
        by_cases hkq : k = q
        · rw [if_pos hkq, if_pos hkq, if_neg (by rw [← hkq]; exact hk)]
        · rw [if_neg hkq, if_neg hkq]

theorem fs_insert_lookup (fs : FS) (p v q : String) :
    FS.lookup (FS.insert fs p v) q = if q = p then some v else FS.lookup fs q := by
  by_cases hq : q = p
  · subst hq
    show FS.lookup ((q, v) :: FS.erase fs q) q = _
    rw [fs_lookup_cons, if_pos rfl, if_pos rfl]
  · show FS.lookup ((p, v) :: FS.erase fs p) q = _
    rw [fs_lookup_cons, fs_erase_lookup, if_neg (fun h => hq h.symm), if_neg hq, if_neg hq]

theorem deleteFile_lookup (fs : FS) (p q : String) :
    FS.lookup (deleteFile fs p).1 q = if q = p then none else FS.lookup fs q := by
  unfold deleteFile
  cases h : FS.lookup fs p with
  | none =>
      by_cases hq : q = p <;> simp [hq, h]
  | some w => simp [fs_erase_lookup]

theorem deleteFiles_fst (fs : FS) (p : String) (ps : List String) :
    (deleteFiles fs (p :: ps)).1 = (deleteFiles (deleteFile fs p).1 ps).1 := by
  conv_lhs => rw [deleteFiles]
  cases h : (deleteFile fs p).2 <;> simp [h]

theorem deleteFiles_lookup (ps : List String) (fs : FS) (q : String) :
    FS.lookup (deleteFiles fs ps).1 q = if q ∈ ps then none else FS.lookup fs q := by
  induction ps generalizing fs with
  | nil => simp [deleteFiles]
  | cons p ps ih =>
      rw [deleteFiles_fst, ih, deleteFile_lookup]
      by_cases h1 : q ∈ ps
      · simp [h1]
      · by_cases h2 : q = p <;> simp [h1, h2]

/-! # Stage-level helper lemmas -/

theorem downloadVideo_ok (dir : String) (info : DouyinVideoInfo) (env : Except String DlResp)
    (fs : FS) (p : String) (h : (downloadVideo dir info env fs).result = .ok p) :
    p = videoPathOf dir info ∧
    ∃ w, FS.lookup (downloadVideo dir info env fs).fs p = some w := by
  unfold downloadVideo at h ⊢
  cases hfs : FS.lookup fs (videoPathOf dir info) with
  | some w =>
      simp only [hfs, Except.ok.injEq] at h
      subst h
      refine ⟨rfl, ?_⟩
      simp only [hfs]
      exact ⟨w, rfl⟩
  | none =>
      cases env with
      | error m => simp [hfs] at h
      | ok resp =>
          cases hend : resp.ending with
          | errored m => simp [hfs, hend] at h
          | finish =>
              simp only [hfs, hend, Except.ok.injEq] at h
              subst h
              refine ⟨rfl, String.join resp.chunks, ?_⟩
              simp only [hfs, hend]
              rw [fs_insert_lookup]
              simp

theorem extractAudio_ok (videoPath : String) (env : FfmpegEnv) (fs : FS) (ap : String)
    (h : (extractAudio videoPath env fs).result = .ok ap) :
    ap = audioPathOf videoPath ∧
    ∀ q w, FS.lookup fs q = some w →
      ∃ w2, FS.lookup (extractAudio videoPath env fs).fs q = some w2 := by
  unfold extractAudio at h ⊢
  cases hfs : FS.lookup fs videoPath with
  | none => simp [hfs] at h
  | some w0 =>
      cases hend : env.ending with
      | errored m => simp [hfs, hend] at h
      | finish =>
          simp only [hfs, hend, Except.ok.injEq] at h
          subst h
          refine ⟨rfl, fun q w hq => ?_⟩
          simp only [hfs, hend]
          cases hw : env.written with
          | none => exact ⟨w, hq⟩
          | some content =>
              rw [fs_insert_lookup]
              by_cases hqa : q = audioPathOf videoPath
              · exact ⟨content, by simp [hqa]⟩
              · exact ⟨w, by simp [hqa, hq]⟩

theorem extractTextFromAudio_ok_exists (audioPath : String) (env : Except String (Option String))
    (fs : FS) (t : String) (h : (extractTextFromAudio audioPath env fs).result = .ok t) :
    ∃ w, FS.lookup fs audioPath = some w := by
  unfold extractTextFromAudio at h
  cases hfs : FS.lookup fs audioPath with
  | none => simp [hfs] at h
  | some w => exact ⟨w, rfl⟩

/-! # Claim theorems -/

/-- C9: for every share text without a URL-shaped substring, `parseShareUrl`
fails immediately with the input error, issuing no HTTP request, sleeping no
backoff and consuming no attempt. -/
theorem parseShareUrl_no_url (env : Nat → AttemptEnv) (shareText : String) (maxRetries : Nat)
    (h : hasUrl shareText = false) :
    parseShareUrl env shareText maxRetries =
      (.error "未找到有效的分享链接", ⟨[], 0, 0⟩) := by
  unfold parseShareUrl
  simp [h]

/-- C9 witness: a URL-free share text fails instantly even with a dead
network environment and 3 allowed attempts. -/
theorem parseShareUrl_no_url_witness :
    hasUrl "今天看到一个很棒的视频，推荐给大家" = false ∧
    parseShareUrl fixResolveDead "今天看到一个很棒的视频，推荐给大家" 3 =
      (.error "未找到有效的分享链接", ⟨[], 0, 0⟩) :=
  ⟨by decide, parseShareUrl_no_url fixResolveDead _ 3 (by decide)⟩

/-- C8: with the audio file present, a successful API response with a
non-empty `text` field is returned verbatim, and an absent or empty `text`
field yields the fixed placeholder, not an error. -/
theorem extractTextFromAudio_text_field (audioPath : String) (fs : FS) (v : String)
    (env : Except String (Option String)) (h : FS.lookup fs audioPath = some v) :
    (∀ t : String, t ≠ "" → env = .ok (some t) →
        (extractTextFromAudio audioPath env fs).result = .ok t) ∧
    (env = .ok none → (extractTextFromAudio audioPath env fs).result = .ok placeholderText) ∧
    (env = .ok (some "") →
        (extractTextFromAudio audioPath env fs).result = .ok placeholderText) := by
  refine ⟨fun t ht henv => ?_, fun henv => ?_, fun henv => ?_⟩ <;>
    (subst henv; unfold extractTextFromAudio; simp [h])
  intro hbad
  exact absurd hbad ht

/-- C8 witness: concrete runs for `text = "hello world"`, a missing field,
and an empty field. -/
theorem extractTextFromAudio_text_field_witness :
    (extractTextFromAudio "a.mp3" (.ok (some "hello world")) [("a.mp3", "AUDIO")]).result =
      .ok "hello world" ∧
    (extractTextFromAudio "a.mp3" (.ok none) [("a.mp3", "AUDIO")]).result =
      .ok placeholderText ∧
    (extractTextFromAudio "a.mp3" (.ok (some "")) [("a.mp3", "AUDIO")]).result =
      .ok placeholderText :=
  ⟨(extractTextFromAudio_text_field "a.mp3" [("a.mp3", "AUDIO")] "AUDIO" _ (by decide)).1
      "hello world" (by decide) rfl,
   (extractTextFromAudio_text_field "a.mp3" [("a.mp3", "AUDIO")] "AUDIO" _ (by decide)).2.1 rfl,
   (extractTextFromAudio_text_field "a.mp3" [("a.mp3", "AUDIO")] "AUDIO" _ (by decide)).2.2 rfl⟩

/-- C10: when the input video exists and ffmpeg signals `end`,
`extractAudio` resolves with the derived audio path without ever checking
that the output exists (if ffmpeg wrote nothing, the filesystem is
untouched); and it rejects only when the input is missing or ffmpeg signals
an error. -/
theorem extractAudio_no_output_check :
    (∀ (videoPath : String) (env : FfmpegEnv) (fs : FS) (v : String),
        FS.lookup fs videoPath = some v → env.ending = .finish →
        (extractAudio videoPath env fs).result = .ok (audioPathOf videoPath) ∧
        (env.written = none → (extractAudio videoPath env fs).fs = fs)) ∧
    (∀ (videoPath : String) (env : FfmpegEnv) (fs : FS) (m : String),
        (extractAudio videoPath env fs).result = .error m →
        FS.lookup fs videoPath = none ∨ ∃ e, env.ending = .errored e) := by
  constructor
  · intro videoPath env fs v hfs hend
    unfold extractAudio
    simp only [hfs, hend]
    refine ⟨by trivial, fun hw => ?_⟩
    simp [hw]
  · intro videoPath env fs m h
    unfold extractAudio at h
    cases hfs : FS.lookup fs videoPath with
    | none => exact Or.inl rfl
    | some w =>
        cases hend : env.ending with
        | finish => simp [hfs, hend] at h
        | errored e => exact Or.inr ⟨e, rfl⟩

/-- C10 witness: ffmpeg reports `end` without creating the output; the call
still succeeds with the derived path, and no file exists at that path. -/
theorem extractAudio_no_output_check_witness :
    (extractAudio "v.mp4" fixFfFinish [("v.mp4", "VIDEO")]).result = .ok "v.mp3" ∧
    (extractAudio "v.mp4" fixFfFinish [("v.mp4", "VIDEO")]).fs = [("v.mp4", "VIDEO")] ∧
    FS.lookup [("v.mp4", "VIDEO")] "v.mp3" = none := by
  have h := extractAudio_no_output_check.1 "v.mp4" fixFfFinish [("v.mp4", "VIDEO")] "VIDEO"
    (by decide) (by decide)
  exact ⟨h.1, h.2 rfl, by decide⟩

/-- C5: a failing download leaves no file at the destination path, and a
terminal ffmpeg error leaves no file at the derived audio path. -/
theorem partial_outputs_deleted :
    (∀ (dir : String) (info : DouyinVideoInfo) (env : Except String DlResp) (fs : FS)
        (m : String), (downloadVideo dir info env fs).result = .error m →
        FS.lookup (downloadVideo dir info env fs).fs (videoPathOf dir info) = none) ∧
    (∀ (videoPath : String) (env : FfmpegEnv) (fs : FS) (v m : String),
        FS.lookup fs videoPath = some v → env.ending = .errored m →
        (extractAudio videoPath env fs).result = .error ("提取音频失败: " ++ m) ∧
        FS.lookup (extractAudio videoPath env fs).fs (audioPathOf videoPath) = none) := by
  constructor
  · intro dir info env fs m h
    unfold downloadVideo at h ⊢
    cases hfs : FS.lookup fs (videoPathOf dir info) with
    | some w => simp [hfs] at h
    | none =>
        cases env with
        | error m2 =>
            simp only [hfs]
            rw [deleteFile_lookup]
            simp
        | ok resp =>
            cases hend : resp.ending with
            | finish => simp [hfs, hend] at h
            | errored m2 =>
                simp only [hfs, hend]
                rw [deleteFile_lookup]
                simp
  · intro videoPath env fs v m hfs hend
    unfold extractAudio
    simp only [hfs, hend]
    exact ⟨by trivial, by rw [deleteFile_lookup]; simp⟩

/-- C5 witness: a concrete stream error deletes the partial video; a
concrete ffmpeg error deletes the partial audio. -/
theorem partial_outputs_deleted_witness :
    FS.lookup (downloadVideo "dl" fixVideoInfo
      (.ok { contentLength := some 4, chunks := ["ab"], ending := .errored "read ETIMEDOUT" })
      []).fs "dl/v1.mp4" = none ∧
    (extractAudio "v.mp4" fixFfErr [("v.mp4", "VIDEO")]).result =
      .error "提取音频失败: ffmpeg exited with code 1" ∧
    FS.lookup (extractAudio "v.mp4" fixFfErr [("v.mp4", "VIDEO")]).fs "v.mp3" = none := by
  have h1 := partial_outputs_deleted.1 "dl" fixVideoInfo
    (.ok { contentLength := some 4, chunks := ["ab"], ending := .errored "read ETIMEDOUT" })
    [] "下载视频失败: read ETIMEDOUT" (by decide)
  have h2 := partial_outputs_deleted.2 "v.mp4" fixFfErr [("v.mp4", "VIDEO")] "VIDEO"
    "ffmpeg exited with code 1" (by decide) (by decide)
  exact ⟨h1, h2.1, h2.2⟩

/-- C4: whatever stage fails first, `extractText` rethrows that stage's
error verbatim — the orchestrator adds no wrapping of its own. -/
theorem extractText_rethrows (cfg : PipelineConfig) (env : PipelineEnv) (shareText : String)
    (maxRetries : Nat) (fs : FS) :
    (∀ m, (parseShareUrl env.resolve shareText maxRetries).1 = .error m →
        (extractText cfg env shareText maxRetries fs).result = .error m) ∧
    (∀ info m, (parseShareUrl env.resolve shareText maxRetries).1 = .ok info →
        (downloadVideo cfg.downloadDir info env.download fs).result = .error m →
        (extractText cfg env shareText maxRetries fs).result = .error m) ∧
    (∀ info vp m, (parseShareUrl env.resolve shareText maxRetries).1 = .ok info →
        (downloadVideo cfg.downloadDir info env.download fs).result = .ok vp →
        (extractAudio vp env.ffmpeg
          (downloadVideo cfg.downloadDir info env.download fs).fs).result = .error m →
        (extractText cfg env shareText maxRetries fs).result = .error m) ∧
    (∀ info vp ap m, (parseShareUrl env.resolve shareText maxRetries).1 = .ok info →
        (downloadVideo cfg.downloadDir info env.download fs).result = .ok vp →
        (extractAudio vp env.ffmpeg
          (downloadVideo cfg.downloadDir info env.download fs).fs).result = .ok ap →
        (extractTextFromAudio ap env.speech
          (extractAudio vp env.ffmpeg
            (downloadVideo cfg.downloadDir info env.download fs).fs).fs).result = .error m →
        (extractText cfg env shareText maxRetries fs).result = .error m) := by
  refine ⟨fun m h1 => ?_, fun info m h1 h2 => ?_, fun info vp m h1 h2 h3 => ?_,
    fun info vp ap m h1 h2 h3 h4 => ?_⟩
  · unfold extractText
    simp only [h1]
  · unfold extractText
    simp only [h1, h2]
  · unfold extractText
    simp only [h1, h2, h3]
  · unfold extractText
    simp only [h1, h2, h3, h4]

/-- C4 witness: the download stage throws and the pipeline surfaces exactly
that message. -/
theorem extractText_rethrows_witness :
    (downloadVideo cfgClean.downloadDir fixInfo pipeDlFail.download []).result =
      .error "下载视频失败: socket hang up" ∧
    (extractText cfgClean pipeDlFail "https://v.douyin.com/x" 3 []).result =
      .error "下载视频失败: socket hang up" :=
  ⟨by decide,
   (extractText_rethrows cfgClean pipeDlFail "https://v.douyin.com/x" 3 []).2.1 fixInfo
     "下载视频失败: socket hang up" (by decide) (by decide)⟩

/-- C2: the destination path depends only on the video id; an existing
destination short-circuits with a single 100% event and zero requests; a
second sequential call after any successful call returns the same path and
leaves the filesystem (hence the file content) unchanged. -/
theorem downloadVideo_idempotent (dir : String) (info : DouyinVideoInfo)
    (env1 env2 : Except String DlResp) (fs : FS) :
    (∀ info2 : DouyinVideoInfo, info2.videoId = info.videoId →
        videoPathOf dir info2 = videoPathOf dir info) ∧
    (∀ v, FS.lookup fs (videoPathOf dir info) = some v →
        downloadVideo dir info env1 fs =
          { result := .ok (videoPathOf dir info), fs := fs,
            events := [⟨.downloading, 100, "视频已存在，跳过下载: " ++ info.videoId⟩],
            httpReqs := 0 }) ∧
    (∀ p, (downloadVideo dir info env1 fs).result = .ok p →
        p = videoPathOf dir info ∧
        downloadVideo dir info env2 (downloadVideo dir info env1 fs).fs =
          { result := .ok p, fs := (downloadVideo dir info env1 fs).fs,
            events := [⟨.downloading, 100, "视频已存在，跳过下载: " ++ info.videoId⟩],
            httpReqs := 0 }) := by
  refine ⟨?_, ?_, ?_⟩
  · intro info2 h
    unfold videoPathOf
    rw [h]
  · intro v hv
    unfold downloadVideo
    simp only [hv]
  · intro p hp
    obtain ⟨hpe, w, hw⟩ := downloadVideo_ok dir info env1 fs p hp
    subst hpe
    refine ⟨rfl, ?_⟩
    set fs1 := (downloadVideo dir info env1 fs).fs with hdef
    unfold downloadVideo
    simp only [hw]

/-- C2 witness: a concrete fresh download followed by a second call against
a dead network: same path, unchanged file, one 100% event, zero requests. -/
theorem downloadVideo_idempotent_witness :
    (downloadVideo "dl" fixVideoInfo fixDlFinish []).result = .ok "dl/v1.mp4" ∧
    (downloadVideo "dl" fixVideoInfo fixDlFinish []).fs = [("dl/v1.mp4", "abc")] ∧
    downloadVideo "dl" fixVideoInfo fixDlBoom (downloadVideo "dl" fixVideoInfo fixDlFinish []).fs =
      { result := .ok "dl/v1.mp4", fs := (downloadVideo "dl" fixVideoInfo fixDlFinish []).fs,
        events := [⟨.downloading, 100, "视频已存在，跳过下载: v1"⟩], httpReqs := 0 } := by
  have h := (downloadVideo_idempotent "dl" fixVideoInfo fixDlFinish fixDlBoom []).2.2
    "dl/v1.mp4" (by decide)
  exact ⟨by decide, by decide, h.2⟩

/-! ## First-occurrence replacement lemmas (for C7) -/

theorem replaceFirstL_no_occurrence (pat rep : List Char) :
    ∀ l, hasSubstrL pat l = false → replaceFirstL pat rep l = l := by
  intro l
  induction l with
  | nil => intro _; rfl
  | cons c rest ih =>
      intro h
      rw [hasSubstrL, Bool.or_eq_false_iff] at h
      rw [replaceFirstL, if_neg (by simp [h.1]), ih h.2]

theorem replaceFirstL_extension (m : List Char) (c : Char) (rep : List Char) :
    ∀ q : List Char, hasSubstrL (m ++ [c]) (q ++ m) = false →
      replaceFirstL (m ++ [c]) rep (q ++ (m ++ [c])) = q ++ rep := by
  intro q
  induction q with
  | nil =>
      intro _
      simp only [List.nil_append]
      have hpre : (m ++ [c]).isPrefixOf (m ++ [c]) = true :=
        List.isPrefixOf_iff_prefix.mpr List.prefix_rfl
      cases hp : m ++ [c] with
      | nil => exact absurd hp (by simp)
      | cons h0 t0 =>
          simp [replaceFirstL, hpre, List.drop_length]
  | cons a q' ih =>
      intro h
      rw [List.cons_append, hasSubstrL, Bool.or_eq_false_iff] at h
      obtain ⟨h1, h2⟩ := h
      have hc : ¬((m ++ [c]).isPrefixOf (a :: (q' ++ (m ++ [c]))) = true) := by
        intro hcontra
        rw [List.isPrefixOf_iff_prefix] at hcontra
        have he : a :: (q' ++ (m ++ [c])) = (a :: (q' ++ m)) ++ [c] := by simp
        rw [he] at hcontra
        have hlen : (m ++ [c]).length ≤ (a :: (q' ++ m)).length := by
          simp
        have hpre2 : (m ++ [c]) <+: (a :: (q' ++ m)) :=
          List.prefix_of_prefix_length_le hcontra (List.prefix_append _ _) hlen
        exact absurd (List.isPrefixOf_iff_prefix.mpr hpre2) (by simp [h1])
      rw [List.cons_append, replaceFirstL, if_neg hc, ih h2]
      rfl

/-- C7 (amended): `extractAudio` derives — and on success returns — the
input path with the *first* occurrence of `.mp4` replaced by `.mp3` (the
path unchanged when `.mp4` does not occur); when the only occurrence of
`.mp4` is the trailing extension this coincides with replacing the
extension and leaving the rest unchanged. -/
theorem extractAudio_path_replaceFirst :
    (∀ (videoPath : String) (env : FfmpegEnv) (fs : FS) (p : String),
        (extractAudio videoPath env fs).result = .ok p →
        p = jsReplaceFirst videoPath ".mp4" ".mp3") ∧
    (∀ q : String, strContains (q ++ ".mp") ".mp4" = false →
        audioPathOf (q ++ ".mp4") = q ++ ".mp3") ∧
    (∀ p : String, strContains p ".mp4" = false → audioPathOf p = p) := by
  refine ⟨?_, ?_, ?_⟩
  · intro videoPath env fs p h
    exact (extractAudio_ok videoPath env fs p h).1
  · intro q h
    have h2 : hasSubstrL (".mp".toList ++ ['4']) (q.toList ++ ".mp".toList) = false := by
      have e1 : (".mp".toList ++ ['4'] : List Char) = ".mp4".toList := by decide
      have e2 : q.toList ++ ".mp".toList = (q ++ ".mp").toList := by
        show q.data ++ ".mp".data = (q ++ ".mp").data
        rw [String.data_append]
      rw [e1, e2]
      exact h
    have h3 := replaceFirstL_extension ".mp".toList '4' ".mp3".toList q.toList h2
    apply String.ext
    show replaceFirstL ".mp4".toList ".mp3".toList (q ++ ".mp4").toList = (q ++ ".mp3").data
    have e3 : (q ++ ".mp4").toList = q.toList ++ (".mp".toList ++ ['4']) := by
      show (q ++ ".mp4").data = q.data ++ (".mp".toList ++ ['4'])
      rw [String.data_append]
      congr 1
    have e4 : (".mp4".toList : List Char) = ".mp".toList ++ ['4'] := by decide
    rw [e3, e4, h3]
    show q.data ++ ".mp3".data = (q ++ ".mp3").data
    rw [String.data_append]
  · intro p h
    apply String.ext
    show replaceFirstL ".mp4".toList ".mp3".toList p.toList = p.data
    exact replaceFirstL_no_occurrence _ _ _ h

/-- C7 witness: a path whose only `.mp4` is the extension gets `.mp3`, a
path without `.mp4` is returned unchanged. -/
theorem extractAudio_path_replaceFirst_witness :
    audioPathOf ("video" ++ ".mp4") = "video" ++ ".mp3" ∧
    audioPathOf "noext.avi" = "noext.avi" :=
  ⟨extractAudio_path_replaceFirst.2.1 "video" (by decide),
   extractAudio_path_replaceFirst.2.2 "noext.avi" (by decide)⟩

/-- C7 counterexample: for `clip.mp4.mp4` the code rewrites the *first*
occurrence, producing `clip.mp3.mp4`, not the extension-replaced
`clip.mp4.mp3` the claim describes — and `extractAudio` succeeds returning
that path. -/
theorem extractAudio_path_cex :
    (extractAudio "clip.mp4.mp4" fixFfFinish [("clip.mp4.mp4", "V")]).result =
      .ok "clip.mp3.mp4" ∧
    specAudioPath "clip.mp4.mp4" = "clip.mp4.mp3" ∧
    audioPathOf "clip.mp4.mp4" ≠ specAudioPath "clip.mp4.mp4" := by
  decide

/-! ## Cleanup policy (C3) -/

theorem runCleanup_isSome (b : Bool) (fs : FS) (ps : List String) :
    ((runCleanup b fs ps).2).isSome = b := by
  cases b <;> simp [runCleanup]

/-- C3 (amended): cleanup of the tracked artifact list is attempted exactly
when `autoCleanTempFiles` is enabled (on success and failure paths alike);
on a successful run with auto-clean enabled no tracked path exists
afterwards, and on a successful run with auto-clean disabled every tracked
path still exists afterwards. -/
theorem extractText_cleanup_policy (cfg : PipelineConfig) (env : PipelineEnv)
    (shareText : String) (maxRetries : Nat) (fs : FS) :
    ((extractText cfg env shareText maxRetries fs).cleaned.isSome = cfg.autoCleanTempFiles) ∧
    (∀ r, (extractText cfg env shareText maxRetries fs).result = .ok r →
        cfg.autoCleanTempFiles = true →
        ∀ p ∈ (extractText cfg env shareText maxRetries fs).tempFiles,
          FS.lookup (extractText cfg env shareText maxRetries fs).fs p = none) ∧
    (∀ r, (extractText cfg env shareText maxRetries fs).result = .ok r →
        cfg.autoCleanTempFiles = false →
        ∀ p ∈ (extractText cfg env shareText maxRetries fs).tempFiles,
          FS.lookup (extractText cfg env shareText maxRetries fs).fs p ≠ none) := by
  rcases hp : (parseShareUrl env.resolve shareText maxRetries).1 with m | info
  · refine ⟨?_, ?_, ?_⟩
    · simp only [extractText, hp]
      exact runCleanup_isSome _ _ _
    · intro r hr
      simp only [extractText, hp] at hr
      exact absurd hr (by simp)
    · intro r hr
      simp only [extractText, hp] at hr
      exact absurd hr (by simp)
  · rcases hd : (downloadVideo cfg.downloadDir info env.download fs).result with m | vp
    · refine ⟨?_, ?_, ?_⟩
      · simp only [extractText, hp, hd]
        exact runCleanup_isSome _ _ _
      · intro r hr
        simp only [extractText, hp, hd] at hr
        exact absurd hr (by simp)
      · intro r hr
        simp only [extractText, hp, hd] at hr
        exact absurd hr (by simp)
    · rcases ha : (extractAudio vp env.ffmpeg
          (downloadVideo cfg.downloadDir info env.download fs).fs).result with m | ap
      · refine ⟨?_, ?_, ?_⟩
        · simp only [extractText, hp, hd, ha]
          exact runCleanup_isSome _ _ _
        · intro r hr
          simp only [extractText, hp, hd, ha] at hr
          exact absurd hr (by simp)
        · intro r hr
          simp only [extractText, hp, hd, ha] at hr
          exact absurd hr (by simp)
      · rcases hs : (extractTextFromAudio ap env.speech
            (extractAudio vp env.ffmpeg
              (downloadVideo cfg.downloadDir info env.download fs).fs).fs).result with m | txt
        · refine ⟨?_, ?_, ?_⟩
          · simp only [extractText, hp, hd, ha, hs]
            exact runCleanup_isSome _ _ _
          · intro r hr
            simp only [extractText, hp, hd, ha, hs] at hr
            exact absurd hr (by simp)
          · intro r hr
            simp only [extractText, hp, hd, ha, hs] at hr
            exact absurd hr (by simp)
        · refine ⟨?_, ?_, ?_⟩
          · simp only [extractText, hp, hd, ha, hs]
            exact runCleanup_isSome _ _ _
          · intro r _ hb p hmem
            simp only [extractText, hp, hd, ha, hs] at hmem ⊢
            simp at hmem
            rcases hmem with h | h
            all_goals rw [h]; simp [hb, runCleanup, deleteFiles_lookup]
          · intro r _ hb p hmem
            simp only [extractText, hp, hd, ha, hs] at hmem ⊢
            simp at hmem
            rcases hmem with h | h
            · rw [h]
              obtain ⟨hpe, w, hw⟩ :=
                downloadVideo_ok cfg.downloadDir info env.download fs vp hd
              obtain ⟨w2, hw2⟩ := (extractAudio_ok vp env.ffmpeg
                (downloadVideo cfg.downloadDir info env.download fs).fs ap ha).2 vp w hw
              simp [hb, runCleanup, hw2]
            · rw [h]
              obtain ⟨w, hw⟩ := extractTextFromAudio_ok_exists ap env.speech
                (extractAudio vp env.ffmpeg
                  (downloadVideo cfg.downloadDir info env.download fs).fs).fs txt hs
              simp [hb, runCleanup, hw]

/-- C3 witness: a fully successful run — with auto-clean enabled the tracked
video file is gone afterwards, with auto-clean disabled the tracked audio
file still exists. -/
theorem extractText_cleanup_policy_witness :
    ((extractText cfgClean pipeGood "https://v.douyin.com/x" 3 []).cleaned.isSome = true) ∧
    FS.lookup (extractText cfgClean pipeGood "https://v.douyin.com/x" 3 []).fs
      "dl/7123.mp4" = none ∧
    FS.lookup (extractText cfgKeep pipeGood "https://v.douyin.com/x" 3 []).fs
      "dl/7123.mp3" ≠ none := by
  have h1 := (extractText_cleanup_policy cfgClean pipeGood "https://v.douyin.com/x" 3 []).1
  have h2 := (extractText_cleanup_policy cfgClean pipeGood "https://v.douyin.com/x" 3 []).2.1
    (fixInfo, "hello world") (by decide) (by decide) "dl/7123.mp4" (by decide)
  have h3 := (extractText_cleanup_policy cfgKeep pipeGood "https://v.douyin.com/x" 3 []).2.2
    (fixInfo, "hello world") (by decide) (by decide) "dl/7123.mp3" (by decide)
  exact ⟨h1, h2, h3⟩

/-- C3 counterexample: ffmpeg signals success without creating the audio
file, the speech stage then fails on the missing file; with auto-clean
disabled a tracked path does *not* exist afterwards, refuting the
unqualified claim. -/
theorem extractText_cleanup_policy_cex :
    cfgKeep.autoCleanTempFiles = false ∧
    (extractText cfgKeep pipeNoAudio "https://v.douyin.com/x" 3 []).result =
      .error "音频文件不存在: dl/7123.mp3" ∧
    "dl/7123.mp3" ∈ (extractText cfgKeep pipeNoAudio "https://v.douyin.com/x" 3 []).tempFiles ∧
    FS.lookup (extractText cfgKeep pipeNoAudio "https://v.douyin.com/x" 3 []).fs
      "dl/7123.mp3" = none := by
  decide

/-! ## Retry schedule of the resolver (C1) -/

theorem runBody_class_reqError (e : AttemptEnv) (a N : Nat)
    (h : classAt e a N = some .reqError) :
    ∃ m n, runBody e a N = (.thrown m, n) := by
  cases hs : e.shareReq with
  | error m => exact ⟨m, 1, by simp [runBody, hs]⟩
  | ok respUrl =>
      cases hpq : e.pageReq with
      | error m => exact ⟨m, 2, by simp [runBody, hs, hpq]⟩
      | ok html =>
          by_cases h1 : needsAuth html ∧ a < N
          · simp [classAt, hs, hpq, h1] at h
          · by_cases h2 : (routerDataOf html).getD "" = "" <;>
              simp [classAt, hs, hpq, h1, h2] at h

theorem runBody_class_interstitial (e : AttemptEnv) (a N : Nat)
    (h : classAt e a N = some .interstitial) :
    a < N ∧ runBody e a N = (.interstitialRetry, 2) := by
  cases hs : e.shareReq with
  | error m => simp [classAt, hs] at h
  | ok respUrl =>
      cases hpq : e.pageReq with
      | error m => simp [classAt, hs, hpq] at h
      | ok html =>
          by_cases h1 : needsAuth html ∧ a < N
          · exact ⟨h1.2, by simp [runBody, hs, hpq, h1]⟩
          · by_cases h2 : (routerDataOf html).getD "" = "" <;>
              simp [classAt, hs, hpq, h1, h2] at h

theorem runBody_class_parseFail (e : AttemptEnv) (a N : Nat)
    (h : classAt e a N = some .parseFail) :
    (a < N → runBody e a N = (.parseRetry, 2)) ∧
    (¬ a < N → runBody e a N = (.thrown "从HTML中解析视频信息失败", 2)) := by
  cases hs : e.shareReq with
  | error m => simp [classAt, hs] at h
  | ok respUrl =>
      cases hpq : e.pageReq with
      | error m => simp [classAt, hs, hpq] at h
      | ok html =>
          by_cases h1 : needsAuth html ∧ a < N
          · simp [classAt, hs, hpq, h1] at h
          · by_cases h2 : (routerDataOf html).getD "" = ""
            · constructor
              · intro hA
                have hna : needsAuth html = false := by
                  cases hhh : needsAuth html
                  · rfl
                  · exact absurd ⟨hhh, hA⟩ h1
                simp [runBody, hs, hpq, hna, h2, hA]
              · intro hA
                simp [runBody, hs, hpq, h2, hA]
            · simp [classAt, hs, hpq, h1, h2] at h

theorem parseLoop_all_fail (env : Nat → AttemptEnv) (N : Nat) (cls : Nat → FailClass) :
    ∀ s : Nat, s ≤ N →
      (∀ a, N - s + 1 ≤ a → a ≤ N → classAt (env a) a N = some (cls a)) →
      ∀ (le : Option String) (st : LoopState),
        ∃ m reqs, parseLoop env N s le st =
          (.error m, ⟨st.delays ++ plannedDelays cls N s, reqs, st.attemptsMade + s⟩) := by
  intro s
  induction s with
  | zero =>
      intro _ _ le st
      refine ⟨finalFailureMsg N le, st.httpReqs, ?_⟩
      simp [parseLoop, plannedDelays]
  | succ s ih =>
      intro hsN hcls le st
      have hle : s ≤ N := Nat.le_of_succ_le hsN
      have hc : classAt (env (N - s)) (N - s) N = some (cls (N - s)) :=
        hcls (N - s) (by omega) (by omega)
      have hcls2 : ∀ a, N - s + 1 ≤ a → a ≤ N → classAt (env a) a N = some (cls a) :=
        fun a hA1 hA2 => hcls a (by omega) hA2
      cases hcv : cls (N - s) with
      | reqError =>
          obtain ⟨m, n, hrb⟩ := runBody_class_reqError _ _ _ (hcv ▸ hc)
          by_cases hA : N - s < N
          · obtain ⟨m2, reqs2, heq⟩ := ih hle hcls2 (some m)
              ⟨st.delays ++ [exceptionDelay (N - s)], st.httpReqs + n, st.attemptsMade + 1⟩
            refine ⟨m2, reqs2, ?_⟩
            simp only [parseLoop, hrb, hA, if_true]
            rw [heq]
            have hplan : plannedDelays cls N (s + 1) =
                delayOf (cls (N - s)) (N - s) :: plannedDelays cls N s := by
              rw [plannedDelays, if_pos hA]
              simp
            rw [hplan, hcv]
            simp only [Prod.mk.injEq, LoopState.mk.injEq]
            refine ⟨by trivial, ?_, by trivial, ?_⟩
            · simp [List.append_assoc, delayOf]
            · omega
          · have hs0 : s = 0 := by omega
            subst hs0
            refine ⟨finalFailureMsg N (some m), st.httpReqs + n, ?_⟩
            simp only [parseLoop, hrb]
            rw [if_neg hA]
            simp [parseLoop, plannedDelays, hA]
      | interstitial =>
          obtain ⟨hA, hrb⟩ := runBody_class_interstitial _ _ _ (hcv ▸ hc)
          obtain ⟨m2, reqs2, heq⟩ := ih hle hcls2 le
            ⟨st.delays ++ [interstitialDelay (N - s)], st.httpReqs + 2, st.attemptsMade + 1⟩
          refine ⟨m2, reqs2, ?_⟩
          simp only [parseLoop, hrb]
          rw [heq]
          have hplan : plannedDelays cls N (s + 1) =
              delayOf (cls (N - s)) (N - s) :: plannedDelays cls N s := by
            rw [plannedDelays, if_pos hA]
            simp
          rw [hplan, hcv]
          simp only [Prod.mk.injEq, LoopState.mk.injEq]
          refine ⟨by trivial, ?_, by trivial, ?_⟩
          · simp [List.append_assoc, delayOf]
          · omega
      | parseFail =>
          have hpf := runBody_class_parseFail _ _ _ (hcv ▸ hc)
          by_cases hA : N - s < N
          · have hrb := hpf.1 hA
            obtain ⟨m2, reqs2, heq⟩ := ih hle hcls2 (some "从HTML中解析视频信息失败")
              ⟨st.delays ++ [parseFailedDelay (N - s)], st.httpReqs + 2, st.attemptsMade + 1⟩
            refine ⟨m2, reqs2, ?_⟩
            simp only [parseLoop, hrb]
            rw [heq]
            have hplan : plannedDelays cls N (s + 1) =
                delayOf (cls (N - s)) (N - s) :: plannedDelays cls N s := by
              rw [plannedDelays, if_pos hA]
              simp
            rw [hplan, hcv]
            simp only [Prod.mk.injEq, LoopState.mk.injEq]
            refine ⟨by trivial, ?_, by trivial, ?_⟩
            · simp [List.append_assoc, delayOf]
            · omega
          · have hrb := hpf.2 hA
            have hs0 : s = 0 := by omega
            subst hs0
            refine ⟨finalFailureMsg N (some "从HTML中解析视频信息失败"), st.httpReqs + 2, ?_⟩
            simp only [parseLoop, hrb]
            rw [if_neg hA]
            simp [parseLoop, plannedDelays, hA]

theorem plannedDelays_eq (cls : Nat → FailClass) (N : Nat) :
    ∀ s, s ≤ N →
      plannedDelays cls N s =
        (List.range' (N - s + 1) (s - 1)).map (fun a => delayOf (cls a) a) := by
  intro s
  induction s with
  | zero => intro _; simp [plannedDelays]
  | succ s ih =>
      intro hsN
      rw [plannedDelays]
      cases Nat.eq_zero_or_pos s with
      | inl h0 =>
          subst h0
          rw [if_neg (by omega)]
          simp [plannedDelays]
      | inr hpos =>
          rw [if_pos (by omega), ih (by omega)]
          have h1 : N - (s + 1) + 1 = N - s := by omega
          have h2 : (s + 1) - 1 = (s - 1) + 1 := by omega
          rw [h1, h2, List.range'_succ]
          simp

theorem delayOf_mono (c : FailClass) {a b : Nat} (h : a ≤ b) :
    delayOf c a ≤ delayOf c b := by
  have hp : (2 : Nat) ^ (a - 1) ≤ 2 ^ (b - 1) :=
    Nat.pow_le_pow_right (by omega) (by omega)
  cases c <;>
    exact min_le_min (Nat.mul_le_mul (le_refl _) hp) (le_refl _)

/-- C1 (amended): when every attempt fails with one of the three retryable
classes, `parseShareUrl` performs exactly `N` attempts before failing, and
the backoff slept before each retry is the class's capped exponential of the
attempt number (`1000·2^(a-1)` capped at 5000 for interstitials,
`2000·2^(a-1)` capped at 10000 for a missing JSON marker, `3000·2^(a-1)`
capped at 15000 for request-level exceptions); when the failure class is the
same on every attempt, the delay sequence is non-decreasing (across mixed
classes it need not be). -/
theorem parseShareUrl_retry_schedule (env : Nat → AttemptEnv) (cls : Nat → FailClass)
    (shareText : String) (N : Nat) (_hN : 1 ≤ N) (hUrl : hasUrl shareText = true)
    (hFail : ∀ a, 1 ≤ a → a ≤ N → classAt (env a) a N = some (cls a)) :
    (∃ m, (parseShareUrl env shareText N).1 = .error m) ∧
    (parseShareUrl env shareText N).2.attemptsMade = N ∧
    (parseShareUrl env shareText N).2.delays =
      (List.range' 1 (N - 1)).map (fun a => delayOf (cls a) a) ∧
    (∀ c, (∀ a, cls a = c) →
      List.Sorted (fun x y => x ≤ y) (parseShareUrl env shareText N).2.delays) := by
  have hc0 : ∀ a, N - N + 1 ≤ a → a ≤ N → classAt (env a) a N = some (cls a) :=
    fun a h1 h2 => hFail a (by omega) h2
  obtain ⟨m, reqs, heq⟩ := parseLoop_all_fail env N cls N (le_refl N) hc0 none ⟨[], 0, 0⟩
  have hps : parseShareUrl env shareText N = parseLoop env N N none ⟨[], 0, 0⟩ := by
    unfold parseShareUrl
    rw [if_pos hUrl]
  have hplan := plannedDelays_eq cls N N (le_refl N)
  have hNN : N - N + 1 = 1 := by omega
  rw [hNN] at hplan
  have hdelays : (parseShareUrl env shareText N).2.delays =
      (List.range' 1 (N - 1)).map (fun a => delayOf (cls a) a) := by
    rw [hps, heq]
    simp [hplan]
  refine ⟨⟨m, by rw [hps, heq]⟩, by rw [hps, heq]; simp, hdelays, ?_⟩
  intro c hcc
  rw [hdelays]
  have hfg : (fun a => delayOf (cls a) a) = fun a => delayOf c a :=
    funext (fun a => by rw [hcc a])
  rw [hfg]
  show List.Pairwise (fun x y : Nat => x ≤ y) _
  rw [List.pairwise_map]
  exact (List.pairwise_lt_range' 1 (N - 1) 1).imp
    (fun hab => delayOf_mono c (Nat.le_of_lt hab))

/-- C1 witness: with three attempts all failing on a missing JSON marker the
resolver makes exactly 3 attempts, sleeping 2000 ms then 4000 ms, a
non-decreasing schedule. -/
theorem parseShareUrl_retry_schedule_witness :
    (parseShareUrl envPF "http://a" 3).2.attemptsMade = 3 ∧
    (parseShareUrl envPF "http://a" 3).2.delays = [2000, 4000] ∧
    List.Sorted (fun x y : Nat => x ≤ y) (parseShareUrl envPF "http://a" 3).2.delays := by
  have h := parseShareUrl_retry_schedule envPF (fun _ => .parseFail) "http://a" 3
    (by decide) (by decide) ?hf
  case hf =>
    intro a _ _
    have h1 : needsAuth "<html>nothing here</html>" = false := by decide
    have h2 : ((routerDataOf "<html>nothing here</html>").getD "" = "") := by decide
    simp [classAt, envPF, h1, h2]
  refine ⟨h.2.1, ?_, h.2.2.2 .parseFail (fun _ => rfl)⟩
  rw [h.2.2.1]
  decide

/-- C1 counterexample: attempts failing with mixed retryable classes
(request exception, then interstitial, then missing marker) still make
exactly `maxRetries` attempts, but the backoff sequence is `[3000, 2000]` —
*decreasing* — refuting the claim's unconditional monotonicity. -/
theorem parseShareUrl_mixed_backoff_cex :
    classAt (envMix 1) 1 3 = some .reqError ∧
    classAt (envMix 2) 2 3 = some .interstitial ∧
    classAt (envMix 3) 3 3 = some .parseFail ∧
    (parseShareUrl envMix "https://v.douyin.com/x" 3).1 =
      .error "解析抖音链接失败 (已重试 3 次): 从HTML中解析视频信息失败" ∧
    (parseShareUrl envMix "https://v.douyin.com/x" 3).2.attemptsMade = 3 ∧
    (parseShareUrl envMix "https://v.douyin.com/x" 3).2.delays = [3000, 2000] ∧
    ¬ List.Sorted (fun x y : Nat => x ≤ y)
        (parseShareUrl envMix "https://v.douyin.com/x" 3).2.delays := by
  decide

/-! ## Progress events (C6) -/

theorem roundPercent_mono {d1 d2 : Nat} (t : Nat) (h : d1 ≤ d2) :
    roundPercent d1 t ≤ roundPercent d2 t := by
  unfold roundPercent
  by_cases ht : t > 0
  · rw [if_pos ht, if_pos ht]
    apply Nat.div_le_div_right
    omega
  · rw [if_neg ht, if_neg ht]

theorem roundPercent_le_100 {d t : Nat} (h : d ≤ t) : roundPercent d t ≤ 100 := by
  unfold roundPercent
  by_cases ht : t > 0
  · rw [if_pos ht]
    have h1 : 2 * (d * 100) + t ≤ 2 * t * 100 + t := by omega
    have h2 : (2 * t * 100 + t) / (2 * t) = 100 := by
      rw [Nat.mul_add_div (by omega)]
      simp [Nat.div_eq_of_lt (show t < 2 * t by omega)]
    calc (2 * (d * 100) + t) / (2 * t)
        ≤ (2 * t * 100 + t) / (2 * t) := Nat.div_le_div_right h1
      _ = 100 := h2
  · rw [if_neg ht]
    omega

theorem chunkEvents_stage (vid : String) (total : Nat) :
    ∀ (cs : List String) (d : Nat), ∀ e ∈ chunkEvents vid total cs d,
      e.stage = .downloading := by
  intro cs
  induction cs with
  | nil =>
      intro d e he
      simp [chunkEvents] at he
  | cons c rest ih =>
      intro d e he
      simp only [chunkEvents, List.mem_cons] at he
      rcases he with h | h
      · rw [h]
      · exact ih _ e h

theorem chunkEvents_progress_ge (vid : String) (total : Nat) :
    ∀ (cs : List String) (d : Nat), ∀ e ∈ chunkEvents vid total cs d,
      roundPercent d total ≤ e.progress := by
  intro cs
  induction cs with
  | nil =>
      intro d e he
      simp [chunkEvents] at he
  | cons c rest ih =>
      intro d e he
      simp only [chunkEvents, List.mem_cons] at he
      rcases he with h | h
      · rw [h]
        exact roundPercent_mono total (by omega)
      · exact le_trans (roundPercent_mono total (by omega)) (ih (d + c.length) e h)

theorem chunkEvents_progress_le (vid : String) (total : Nat) :
    ∀ (cs : List String) (d : Nat), d + chunksTotal cs ≤ total →
      ∀ e ∈ chunkEvents vid total cs d, e.progress ≤ 100 := by
  intro cs
  induction cs with
  | nil =>
      intro d _ e he
      simp [chunkEvents] at he
  | cons c rest ih =>
      intro d hd e he
      have hct : chunksTotal (c :: rest) = c.length + chunksTotal rest := by
        simp [chunksTotal]
      rw [hct] at hd
      simp only [chunkEvents, List.mem_cons] at he
      rcases he with h | h
      · rw [h]
        exact roundPercent_le_100 (by omega)
      · exact ih (d + c.length) (by omega) e h

theorem chunkEvents_progress_zero (vid : String) :
    ∀ (cs : List String) (d : Nat), ∀ e ∈ chunkEvents vid 0 cs d, e.progress = 0 := by
  intro cs
  induction cs with
  | nil =>
      intro d e he
      simp [chunkEvents] at he
  | cons c rest ih =>
      intro d e he
      simp only [chunkEvents, List.mem_cons] at he
      rcases he with h | h
      · rw [h]
        rfl
      · exact ih _ e h

theorem chunkEvents_sorted (vid : String) (total : Nat) :
    ∀ (cs : List String) (d : Nat),
      List.Sorted (fun x y : Nat => x ≤ y)
        ((chunkEvents vid total cs d).map (fun e => e.progress)) := by
  intro cs
  induction cs with
  | nil =>
      intro d
      simp [chunkEvents]
  | cons c rest ih =>
      intro d
      simp only [chunkEvents, List.map_cons]
      rw [List.sorted_cons]
      refine ⟨?_, ih (d + c.length)⟩
      intro b hb
      simp only [List.mem_map] at hb
      obtain ⟨e, he, hbe⟩ := hb
      rw [← hbe]
      exact chunkEvents_progress_ge vid total rest (d + c.length) e he

theorem ffmpegEvents_stage (r : List (Option Nat)) :
    ∀ e ∈ ffmpegEvents r, e.stage = .extracting_audio := by
  intro e he
  simp only [ffmpegEvents, List.mem_map] at he
  obtain ⟨p, _, hpe⟩ := he
  rw [← hpe]

theorem ffmpegEvents_map (r : List (Option Nat)) :
    (ffmpegEvents r).map (fun e => e.progress) = r.map (fun p => p.getD 0) := by
  simp [ffmpegEvents, List.map_map]

/-- Bound and per-stage ordering for the events of one `downloadVideo` call,
assuming the server does not stream more bytes than its advertised
`content-length` (or advertises none). -/
theorem downloadVideo_events_ok (dir : String) (info : DouyinVideoInfo)
    (env : Except String DlResp) (fs : FS)
    (hdl : ∀ resp, env = .ok resp →
      chunksTotal resp.chunks ≤ resp.contentLength.getD 0 ∨ resp.contentLength.getD 0 = 0) :
    (∀ e ∈ (downloadVideo dir info env fs).events,
      e.stage = .downloading ∧ e.progress ≤ 100) ∧
    List.Sorted (fun x y : Nat => x ≤ y)
      (((downloadVideo dir info env fs).events).map (fun e => e.progress)) := by
  unfold downloadVideo
  cases hfs : FS.lookup fs (videoPathOf dir info) with
  | some w =>
      exact ⟨by intro e he; simp [hfs] at he; rw [he]; exact ⟨rfl, by simp⟩, by simp [hfs]⟩
  | none =>
      cases env with
      | error m =>
          exact ⟨by intro e he; simp [hfs] at he; rw [he]; exact ⟨rfl, by simp⟩, by simp [hfs]⟩
      | ok resp =>
          have hbound : ∀ e ∈ chunkEvents info.videoId (resp.contentLength.getD 0)
              resp.chunks 0, e.progress ≤ 100 := by
            rcases hdl resp rfl with hle | h0
            · exact chunkEvents_progress_le _ _ _ 0 (by omega)
            · intro e he
              rw [h0] at he
              rw [chunkEvents_progress_zero _ _ _ e he]
              omega
          have hsorted := chunkEvents_sorted info.videoId (resp.contentLength.getD 0)
            resp.chunks 0
          have hstage := chunkEvents_stage info.videoId (resp.contentLength.getD 0)
            resp.chunks 0
          cases hend : resp.ending with
          | finish =>
              constructor
              · intro e he
                simp [hfs, hend] at he
                rcases he with h | h | h
                · rw [h]
                  exact ⟨rfl, by simp⟩
                · exact ⟨hstage e h, hbound e h⟩
                · rw [h]
                  exact ⟨rfl, by simp⟩
              · simp only [hfs, hend, List.cons_append, List.map_append, List.map_cons]
                rw [List.sorted_cons]
                constructor
                · intro b _
                  exact Nat.zero_le b
                · show List.Pairwise _ _
                  rw [List.pairwise_append]
                  refine ⟨hsorted, by simp, ?_⟩
                  intro x hx y hy
                  simp only [List.map_cons, List.map_nil, List.mem_singleton] at hy
                  simp only [List.mem_map] at hx
                  obtain ⟨e, he, hxe⟩ := hx
                  rw [hy, ← hxe]
                  exact hbound e he
          | errored m =>
              constructor
              · intro e he
                simp [hfs, hend] at he
                rcases he with h | h
                · rw [h]
                  exact ⟨rfl, by simp⟩
                · exact ⟨hstage e h, hbound e h⟩
              · simp only [hfs, hend, List.map_cons]
                rw [List.sorted_cons]
                exact ⟨fun b _ => Nat.zero_le b, hsorted⟩

theorem extractAudio_events_ok (videoPath : String) (env : FfmpegEnv) (fs : FS)
    (hr1 : List.Sorted (fun x y : Nat => x ≤ y) (env.reported.map (fun p => p.getD 0)))
    (hr2 : ∀ p ∈ env.reported, 10 ≤ p.getD 0 ∧ p.getD 0 ≤ 100) :
    (∀ e ∈ (extractAudio videoPath env fs).events,
      e.stage = .extracting_audio ∧ e.progress ≤ 100) ∧
    List.Sorted (fun x y : Nat => x ≤ y)
      (((extractAudio videoPath env fs).events).map (fun e => e.progress)) := by
  unfold extractAudio
  cases hfs : FS.lookup fs videoPath with
  | none => exact ⟨by intro e he; simp [hfs] at he, by simp [hfs]⟩
  | some w =>
      have hb : ∀ e ∈ ffmpegEvents env.reported, e.progress ≤ 100 := by
        intro e he
        simp only [ffmpegEvents, List.mem_map] at he
        obtain ⟨p, hp, hpe⟩ := he
        rw [← hpe]
        exact (hr2 p hp).2
      have hge : ∀ e ∈ ffmpegEvents env.reported, 10 ≤ e.progress := by
        intro e he
        simp only [ffmpegEvents, List.mem_map] at he
        obtain ⟨p, hp, hpe⟩ := he
        rw [← hpe]
        exact (hr2 p hp).1
      have hsorted : List.Sorted (fun x y : Nat => x ≤ y)
          ((ffmpegEvents env.reported).map (fun e => e.progress)) := by
        rw [ffmpegEvents_map]
        exact hr1
      cases hend : env.ending with
      | finish =>
          constructor
          · intro e he
            simp [hfs, hend] at he
            rcases he with h | h | h | h
            · rw [h]
              exact ⟨rfl, by simp⟩
            · rw [h]
              exact ⟨rfl, by simp⟩
            · exact ⟨ffmpegEvents_stage _ e h, hb e h⟩
            · rw [h]
              exact ⟨rfl, by simp⟩
          · simp only [hfs, hend, List.cons_append, List.map_append, List.map_cons]
            rw [List.sorted_cons, List.sorted_cons]
            refine ⟨fun b _ => Nat.zero_le b, ?_, ?_⟩
            · intro b hb2
              simp only [List.mem_append, List.mem_map, List.mem_cons, List.map_nil,
                List.map_cons, List.not_mem_nil, or_false] at hb2
              rcases hb2 with ⟨e, he, hbe⟩ | hb100
              · rw [← hbe]
                exact hge e he
              · omega
            · show List.Pairwise _ _
              rw [List.pairwise_append]
              refine ⟨hsorted, by simp, ?_⟩
              intro x hx y hy
              simp only [List.map_cons, List.map_nil, List.mem_cons,
                List.not_mem_nil, or_false] at hy
              simp only [List.mem_map] at hx
              obtain ⟨e, he, hxe⟩ := hx
              rw [hy, ← hxe]
              exact hb e he
      | errored m =>
          constructor
          · intro e he
            simp [hfs, hend] at he
            rcases he with h | h | h
            · rw [h]
              exact ⟨rfl, by simp⟩
            · rw [h]
              exact ⟨rfl, by simp⟩
            · exact ⟨ffmpegEvents_stage _ e h, hb e h⟩
          · simp only [hfs, hend, List.map_cons]
            rw [List.sorted_cons, List.sorted_cons]
            refine ⟨fun b _ => Nat.zero_le b, ?_, hsorted⟩
            intro b hb2
            simp only [List.mem_map] at hb2
            obtain ⟨e, he, hbe⟩ := hb2
            rw [← hbe]
            exact hge e he

theorem extractTextFromAudio_events (audioPath : String)
    (env : Except String (Option String)) (fs : FS) :
    (∀ e ∈ (extractTextFromAudio audioPath env fs).events,
      e.stage = .speech_recognition ∧ e.progress ≤ 100) ∧
    List.Sorted (fun x y : Nat => x ≤ y)
      (((extractTextFromAudio audioPath env fs).events).map (fun e => e.progress)) := by
  unfold extractTextFromAudio
  cases hfs : FS.lookup fs audioPath with
  | none => exact ⟨by intro e he; simp [hfs] at he, by simp [hfs]⟩
  | some w =>
      cases env with
      | error m =>
          refine ⟨?_, by simp [hfs]⟩
          intro e he
          simp [hfs] at he
          rw [he]
          exact ⟨rfl, by simp⟩
      | ok t =>
          refine ⟨?_, by simp [hfs]⟩
          intro e he
          simp [hfs] at he
          rcases he with h | h
          · rw [h]
            exact ⟨rfl, by simp⟩
          · rw [h]
            exact ⟨rfl, by simp⟩

theorem stageEvents_append (l1 l2 : List ProgressEvent) (s : Stage) :
    stageEvents (l1 ++ l2) s = stageEvents l1 s ++ stageEvents l2 s := by
  unfold stageEvents
  exact List.filter_append l1 l2

theorem stageEvents_const {l : List ProgressEvent} {t : Stage}
    (h : ∀ e ∈ l, e.stage = t) (s : Stage) :
    stageEvents l s = if s = t then l else [] := by
  by_cases hst : s = t
  · rw [if_pos hst, hst]
    unfold stageEvents
    rw [List.filter_eq_self]
    intro a ha
    simp [h a ha]
  · rw [if_neg hst]
    unfold stageEvents
    rw [List.filter_eq_nil_iff]
    intro a ha
    simp only [h a ha, decide_eq_true_eq]
    exact fun hh => hst hh.symm

/-- Gluing: a run whose events are stage-constant blocks in pipeline order
has a non-decreasing percent sequence within every stage. -/
theorem events_glue (P DL AU SP CL CO : List ProgressEvent)
    (hP : ∀ e ∈ P, e.stage = .parsing)
    (hDL : ∀ e ∈ DL, e.stage = .downloading)
    (hAU : ∀ e ∈ AU, e.stage = .extracting_audio)
    (hSP : ∀ e ∈ SP, e.stage = .speech_recognition)
    (hCL : ∀ e ∈ CL, e.stage = .cleaning)
    (hCO : ∀ e ∈ CO, e.stage = .completed)
    (sP : List.Sorted (fun x y : Nat => x ≤ y) (P.map (fun e => e.progress)))
    (sDL : List.Sorted (fun x y : Nat => x ≤ y) (DL.map (fun e => e.progress)))
    (sAU : List.Sorted (fun x y : Nat => x ≤ y) (AU.map (fun e => e.progress)))
    (sSP : List.Sorted (fun x y : Nat => x ≤ y) (SP.map (fun e => e.progress)))
    (sCL : List.Sorted (fun x y : Nat => x ≤ y) (CL.map (fun e => e.progress)))
    (sCO : List.Sorted (fun x y : Nat => x ≤ y) (CO.map (fun e => e.progress))) :
    ∀ s : Stage, List.Sorted (fun x y : Nat => x ≤ y)
      ((stageEvents (P ++ (DL ++ (AU ++ (SP ++ (CL ++ CO))))) s).map
        (fun e => e.progress)) := by
  intro s
  rw [stageEvents_append, stageEvents_append, stageEvents_append, stageEvents_append,
    stageEvents_append, stageEvents_const hP s, stageEvents_const hDL s,
    stageEvents_const hAU s, stageEvents_const hSP s, stageEvents_const hCL s,
    stageEvents_const hCO s]
  cases s <;> simp [sP, sDL, sAU, sSP, sCL, sCO]

/-- C6 (amended): every emitted percent is a non-negative integer; provided
the download server streams no more bytes than its advertised
`content-length` (or advertises none) and ffmpeg reports non-decreasing
percents within `[10, 100]`, every emitted percent is at most 100 and the
percent sequence within each stage is non-decreasing.  (Without those
collaborator conditions the claim fails: the download percent can exceed
100, and the fixed 10% start marker can exceed a later ffmpeg percent.) -/
theorem progress_events_bounds (cfg : PipelineConfig) (env : PipelineEnv)
    (shareText : String) (maxRetries : Nat) (fs : FS)
    (hdl : ∀ resp, env.download = .ok resp →
      chunksTotal resp.chunks ≤ resp.contentLength.getD 0 ∨ resp.contentLength.getD 0 = 0)
    (hr1 : List.Sorted (fun x y : Nat => x ≤ y)
      (env.ffmpeg.reported.map (fun p => p.getD 0)))
    (hr2 : ∀ p ∈ env.ffmpeg.reported, 10 ≤ p.getD 0 ∧ p.getD 0 ≤ 100) :
    (∀ e ∈ (extractText cfg env shareText maxRetries fs).events, e.progress ≤ 100) ∧
    (∀ s : Stage, List.Sorted (fun x y : Nat => x ≤ y)
      ((stageEvents (extractText cfg env shareText maxRetries fs).events s).map
        (fun e => e.progress))) := by
  rcases hp : (parseShareUrl env.resolve shareText maxRetries).1 with m | info
  · constructor
    · intro e he
      simp only [extractText, hp] at he
      simp at he
      rw [he]
      simp
    · intro s
      have hg := events_glue [⟨.parsing, 0, "正在解析抖音链接"⟩] [] [] [] [] []
        (by decide) (by simp) (by simp) (by simp) (by simp) (by simp)
        (by decide) (by simp) (by simp) (by simp) (by simp) (by simp) s
      simp only [extractText, hp]
      simpa using hg
  · have dlB := (downloadVideo_events_ok cfg.downloadDir info env.download fs hdl).1
    have dlS := (downloadVideo_events_ok cfg.downloadDir info env.download fs hdl).2
    rcases hd : (downloadVideo cfg.downloadDir info env.download fs).result with m | vp
    · constructor
      · intro e he
        simp only [extractText, hp, hd] at he
        simp only [List.mem_append] at he
        rcases he with h | h
        · simp at h
          rcases h with h | h <;> simp [h]
        · exact (dlB e h).2
      · intro s
        have hg := events_glue
          [⟨.parsing, 0, "正在解析抖音链接"⟩, ⟨.parsing, 100, "链接解析完成"⟩]
          (downloadVideo cfg.downloadDir info env.download fs).events [] [] [] []
          (by decide) (fun e he => (dlB e he).1) (by simp) (by simp) (by simp) (by simp)
          (by decide) dlS (by simp) (by simp) (by simp) (by simp) s
        simp only [extractText, hp, hd]
        simpa using hg
    · have auB := (extractAudio_events_ok vp env.ffmpeg
        (downloadVideo cfg.downloadDir info env.download fs).fs hr1 hr2).1
      have auS := (extractAudio_events_ok vp env.ffmpeg
        (downloadVideo cfg.downloadDir info env.download fs).fs hr1 hr2).2
      rcases ha : (extractAudio vp env.ffmpeg
          (downloadVideo cfg.downloadDir info env.download fs).fs).result with m | ap
      · constructor
        · intro e he
          simp only [extractText, hp, hd, ha] at he
          simp only [List.mem_append] at he
          rcases he with (h | h) | h
          · simp at h
            rcases h with h | h <;> simp [h]
          · exact (dlB e h).2
          · exact (auB e h).2
        · intro s
          have hg := events_glue
            [⟨.parsing, 0, "正在解析抖音链接"⟩, ⟨.parsing, 100, "链接解析完成"⟩]
            (downloadVideo cfg.downloadDir info env.download fs).events
            (extractAudio vp env.ffmpeg
              (downloadVideo cfg.downloadDir info env.download fs).fs).events [] [] []
            (by decide) (fun e he => (dlB e he).1) (fun e he => (auB e he).1)
            (by simp) (by simp) (by simp)
            (by decide) dlS auS (by simp) (by simp) (by simp) s
          simp only [extractText, hp, hd, ha]
          simpa using hg
      · have spB := (extractTextFromAudio_events ap env.speech
          (extractAudio vp env.ffmpeg
            (downloadVideo cfg.downloadDir info env.download fs).fs).fs).1
        have spS := (extractTextFromAudio_events ap env.speech
          (extractAudio vp env.ffmpeg
            (downloadVideo cfg.downloadDir info env.download fs).fs).fs).2
        rcases hs : (extractTextFromAudio ap env.speech
            (extractAudio vp env.ffmpeg
              (downloadVideo cfg.downloadDir info env.download fs).fs).fs).result with m | txt
        · constructor
          · intro e he
            simp only [extractText, hp, hd, ha, hs] at he
            simp only [List.mem_append] at he
            rcases he with ((h | h) | h) | h
            · simp at h
              rcases h with h | h <;> simp [h]
            · exact (dlB e h).2
            · exact (auB e h).2
            · exact (spB e h).2
          · intro s
            have hg := events_glue
              [⟨.parsing, 0, "正在解析抖音链接"⟩, ⟨.parsing, 100, "链接解析完成"⟩]
              (downloadVideo cfg.downloadDir info env.download fs).events
              (extractAudio vp env.ffmpeg
                (downloadVideo cfg.downloadDir info env.download fs).fs).events
              (extractTextFromAudio ap env.speech
                (extractAudio vp env.ffmpeg
                  (downloadVideo cfg.downloadDir info env.download fs).fs).fs).events [] []
              (by decide) (fun e he => (dlB e he).1) (fun e he => (auB e he).1)
              (fun e he => (spB e he).1) (by simp) (by simp)
              (by decide) dlS auS spS (by simp) (by simp) s
            simp only [extractText, hp, hd, ha, hs]
            simpa using hg
        · have hCL : ∀ e ∈ (if cfg.autoCleanTempFiles
              then [(⟨.cleaning, 0, "正在清理临时文件"⟩ : ProgressEvent)] else []),
              e.stage = .cleaning := by
            by_cases hb : cfg.autoCleanTempFiles <;> simp [hb]
          have sCL : List.Sorted (fun x y : Nat => x ≤ y)
              (((if cfg.autoCleanTempFiles
                then [(⟨.cleaning, 0, "正在清理临时文件"⟩ : ProgressEvent)] else [])).map
                  (fun e => e.progress)) := by
            by_cases hb : cfg.autoCleanTempFiles <;> simp [hb]
          have hCLb : ∀ e ∈ (if cfg.autoCleanTempFiles
              then [(⟨.cleaning, 0, "正在清理临时文件"⟩ : ProgressEvent)] else []),
              e.progress ≤ 100 := by
            by_cases hb : cfg.autoCleanTempFiles <;> simp [hb]
          constructor
          · intro e he
            simp only [extractText, hp, hd, ha, hs] at he
            simp only [List.mem_append] at he
            rcases he with ((((h | h) | h) | h) | h) | h
            · simp at h
              rcases h with h | h <;> simp [h]
            · exact (dlB e h).2
            · exact (auB e h).2
            · exact (spB e h).2
            · exact hCLb e h
            · simp at h
              simp [h]
          · intro s
            have hg := events_glue
              [⟨.parsing, 0, "正在解析抖音链接"⟩, ⟨.parsing, 100, "链接解析完成"⟩]
              (downloadVideo cfg.downloadDir info env.download fs).events
              (extractAudio vp env.ffmpeg
                (downloadVideo cfg.downloadDir info env.download fs).fs).events
              (extractTextFromAudio ap env.speech
                (extractAudio vp env.ffmpeg
                  (downloadVideo cfg.downloadDir info env.download fs).fs).fs).events
              (if cfg.autoCleanTempFiles
                then [(⟨.cleaning, 0, "正在清理临时文件"⟩ : ProgressEvent)] else [])
              [⟨.completed, 100, "处理完成"⟩]
              (by decide) (fun e he => (dlB e he).1) (fun e he => (auB e he).1)
              (fun e he => (spB e he).1) hCL (by decide)
              (by decide) dlS auS spS sCL (by decide) s
            simp only [extractText, hp, hd, ha, hs]
            simpa using hg

/-- C6 witness: a well-behaved run — every percent is in range and every
stage's sequence is non-decreasing. -/
theorem progress_events_bounds_witness :
    (∀ e ∈ (extractText cfgKeep pipeGood "https://v.douyin.com/x" 3 []).events,
      e.progress ≤ 100) ∧
    List.Sorted (fun x y : Nat => x ≤ y)
      ((stageEvents (extractText cfgKeep pipeGood "https://v.douyin.com/x" 3 []).events
        .downloading).map (fun e => e.progress)) := by
  have h := progress_events_bounds cfgKeep pipeGood "https://v.douyin.com/x" 3 []
    (by intro resp hh; simp only [pipeGood] at hh; cases hh; decide)
    (by decide) (by decide)
  exact ⟨h.1, h.2 .downloading⟩

/-- C6 counterexample: a server that advertises `content-length: 1` but
streams 2 bytes makes the download stage report 200% and then drop to 100%,
and an ffmpeg report of 5% after the fixed 10% start marker makes the
extracting-audio stage decrease — refuting both the 0–100 range and the
monotonicity of the claim. -/
theorem progress_events_cex :
    ((stageEvents (extractText cfgKeep pipeBad "https://v.douyin.com/x" 3 []).events
        .downloading).map (fun e => e.progress) = [0, 200, 100]) ∧
    ¬ List.Sorted (fun x y : Nat => x ≤ y)
      ((stageEvents (extractText cfgKeep pipeBad "https://v.douyin.com/x" 3 []).events
        .downloading).map (fun e => e.progress)) ∧
    ((stageEvents (extractText cfgKeep pipeBad "https://v.douyin.com/x" 3 []).events
        .extracting_audio).map (fun e => e.progress) = [0, 10, 5, 100]) ∧
    ¬ List.Sorted (fun x y : Nat => x ≤ y)
      ((stageEvents (extractText cfgKeep pipeBad "https://v.douyin.com/x" 3 []).events
        .extracting_audio).map (fun e => e.progress)) ∧
    ¬ (∀ e ∈ (extractText cfgKeep pipeBad "https://v.douyin.com/x" 3 []).events,
        e.progress ≤ 100) := by
  decide

end Douyin
